import Mathlib

/-!
Verification development for the host-based pipelined-CG kernels of
`viennacl/linalg/host_based/iterative_operations.hpp`.

The six kernels of that header are embedded shallowly:

* `pipelined_cg_vector_update` — the fused vector-update recurrence with the
  running reduction for `inner_prod(r, r)`;
* `pipelined_cg_prod_csr`, `pipelined_cg_prod_coo`, `pipelined_cg_prod_ell`,
  `pipelined_cg_prod_sliced_ell`, `pipelined_cg_prod_hyb` — the five
  format-specialised fused SpMV kernels with the running reductions for
  `inner_prod(Ap, Ap)` and `inner_prod(p, Ap)`.

Raw memory buffers are modelled as total functions: value buffers are
`Nat → ℚ` (exact arithmetic in place of the C++ floating-point type `T`)
and index buffers are `Nat → Nat` (the C++ `unsigned int` arrays; the
kernels only read them, so no overflow arises).  The sequential loops of
the C++ code become `List.foldl` over `List.range`, preserving statement
order inside each loop body, and every in-place store becomes a pointwise
functional update `upd`.
-/

/-- Store `v` at index `i` of a value buffer modelled as a function. -/
def upd (f : Nat → ℚ) (i : Nat) (v : ℚ) : Nat → ℚ :=
  fun j => if j = i then v else f j

/-- State carried through the loop of `pipelined_cg_vector_update`:
the three mutable vectors and the running sum `inner_prod_r`. -/
structure VecUpdState where
  result : Nat → ℚ
  p : Nat → ℚ
  r : Nat → ℚ
  acc : ℚ

/-- One iteration of the loop body of `pipelined_cg_vector_update`
(lines 80–93 of the source): read the old `p[i]`, `r[i]`, update
`result[i] += alpha * p[i]`, compute the new residual entry, the new
search-direction entry, accumulate the square of the new residual entry,
and store the two new entries. -/
def cg_vector_update_step (alpha beta : ℚ) (Ap : Nat → ℚ)
    (s : VecUpdState) (i : Nat) : VecUpdState :=
  let value_p := s.p i
  let value_r := s.r i
  let result1 := upd s.result i (s.result i + alpha * value_p)
  let value_r1 := value_r - alpha * Ap i
  let value_p1 := value_r1 + beta * value_p
  { result := result1
    p := upd s.p i value_p1
    r := upd s.r i value_r1
    acc := s.acc + value_r1 * value_r1 }

/-- Result of `pipelined_cg_vector_update`: the three updated vectors and
the updated reduction buffer. -/
structure VecUpdOut where
  result : Nat → ℚ
  p : Nat → ℚ
  r : Nat → ℚ
  buffer : Nat → ℚ

/-- Embedding of `viennacl::linalg::host_based::pipelined_cg_vector_update`.
`size` stands for `viennacl::traits::size(result)`; the loop runs over
`i = 0, …, size-1` and afterwards the running sum is stored at index `0`
of the reduction buffer (`data_buffer[0] = inner_prod_r`). -/
def pipelined_cg_vector_update (size : Nat) (result : Nat → ℚ) (alpha : ℚ)
    (p r Ap : Nat → ℚ) (beta : ℚ) (inner_prod_buffer : Nat → ℚ) : VecUpdOut :=
  let s := (List.range size).foldl (cg_vector_update_step alpha beta Ap)
    { result := result, p := p, r := r, acc := 0 }
  { result := s.result, p := s.p, r := s.r
    buffer := upd inner_prod_buffer 0 s.acc }

/-- Wrapper of `pipelined_cg_vector_update` with `result` given as a list:
in the source the loop bound is taken from the `result` argument alone
(`vcl_size_t size = viennacl::traits::size(result);`), while `p`, `r`,
`Ap` and the reduction buffer enter only as raw pointers. -/
def pipelined_cg_vector_update_of_list (result : List ℚ) (alpha : ℚ)
    (p r Ap : Nat → ℚ) (beta : ℚ) (inner_prod_buffer : Nat → ℚ) : VecUpdOut :=
  pipelined_cg_vector_update result.length (fun i => result.getD i 0)
    alpha p r Ap beta inner_prod_buffer

/-- State carried through the row loops of the fused SpMV kernels:
the output vector and the running sums for `(Ap, Ap)` and `(p, Ap)`. -/
structure ProdState where
  Ap : Nat → ℚ
  ApAp : ℚ
  pAp : ℚ

/-- Result of a fused SpMV kernel: the output vector `Ap` and the updated
reduction buffer. -/
structure ProdOut where
  Ap : Nat → ℚ
  buffer : Nat → ℚ

/-- Inner loop of the CSR kernel (lines 130–132): accumulate
`elements[i] * p[col_buffer[i]]` for `i` running from `row_buffer[row]`
to `row_buffer[row+1]`. -/
def csr_row_dot (elements : Nat → ℚ) (col_buffer : Nat → Nat) (p : Nat → ℚ)
    (row_start row_end : Nat) : ℚ :=
  (List.range' row_start (row_end - row_start)).foldl
    (fun dot_prod i => dot_prod + elements i * p (col_buffer i)) 0

/-- Embedding of `pipelined_cg_prod` for `compressed_matrix` (CSR).
`buffer_len` stands for `inner_prod_buffer.size()`. -/
def pipelined_cg_prod_csr (size1 : Nat) (row_buffer col_buffer : Nat → Nat)
    (elements : Nat → ℚ) (p : Nat → ℚ) (Ap : Nat → ℚ)
    (buffer_len : Nat) (inner_prod_buffer : Nat → ℚ) : ProdOut :=
  let buffer_size_per_vector := buffer_len / 3
  let s := (List.range size1).foldl
    (fun (s : ProdState) row =>
      let dot_prod := csr_row_dot elements col_buffer p
        (row_buffer row) (row_buffer (row + 1))
      { Ap := upd s.Ap row dot_prod
        ApAp := s.ApAp + dot_prod * dot_prod
        pAp := s.pAp + p row * dot_prod })
    { Ap := Ap, ApAp := 0, pAp := 0 }
  { Ap := s.Ap
    buffer := upd (upd inner_prod_buffer buffer_size_per_vector s.ApAp)
      (2 * buffer_size_per_vector) s.pAp }

/-- Embedding of `pipelined_cg_prod` for `coordinate_matrix` (COO).
`ap_size` stands for `Ap.size()`; the flat `coord_buffer` stores the row
index of entry `i` at `2*i` and its column index at `2*i+1`. -/
def pipelined_cg_prod_coo (nnz : Nat) (coord_buffer : Nat → Nat)
    (elements : Nat → ℚ) (p : Nat → ℚ) (ap_size : Nat) (Ap : Nat → ℚ)
    (buffer_len : Nat) (inner_prod_buffer : Nat → ℚ) : ProdOut :=
  let buffer_size_per_vector := buffer_len / 3
  let Ap0 := (List.range ap_size).foldl (fun a i => upd a i 0) Ap
  let Ap1 := (List.range nnz).foldl
    (fun a i => upd a (coord_buffer (2 * i))
      (a (coord_buffer (2 * i)) + elements i * p (coord_buffer (2 * i + 1))))
    Ap0
  let s := (List.range ap_size).foldl
    (fun s i =>
      let value_Ap := Ap1 i
      let value_p := p i
      (s.1 + value_Ap * value_Ap, s.2 + value_Ap * value_p))
    ((0 : ℚ), (0 : ℚ))
  { Ap := Ap1
    buffer := upd (upd inner_prod_buffer buffer_size_per_vector s.1)
      (2 * buffer_size_per_vector) s.2 }

/-- Inner loop of the ELL kernel (lines 223–230): iterate the
`internal_maxnnz` slots of a row at stride `internal_size1`, skipping
slots whose stored value is zero before the column index is used. -/
def ell_row_sum (internal_maxnnz internal_size1 : Nat) (elements : Nat → ℚ)
    (coords : Nat → Nat) (p : Nat → ℚ) (row : Nat) : ℚ :=
  (List.range internal_maxnnz).foldl
    (fun sum item_id =>
      let offset := row + item_id * internal_size1
      let val := elements offset
      if val ≠ 0 then sum + p (coords offset) * val else sum) 0

/-- Embedding of `pipelined_cg_prod` for `ell_matrix`. -/
def pipelined_cg_prod_ell (size1 internal_size1 internal_maxnnz : Nat)
    (elements : Nat → ℚ) (coords : Nat → Nat) (p : Nat → ℚ) (Ap : Nat → ℚ)
    (buffer_len : Nat) (inner_prod_buffer : Nat → ℚ) : ProdOut :=
  let buffer_size_per_vector := buffer_len / 3
  let s := (List.range size1).foldl
    (fun (s : ProdState) row =>
      let sum := ell_row_sum internal_maxnnz internal_size1 elements coords p row
      { Ap := upd s.Ap row sum
        ApAp := s.ApAp + sum * sum
        pAp := s.pAp + p row * sum })
    { Ap := Ap, ApAp := 0, pAp := 0 }
  { Ap := s.Ap
    buffer := upd (upd inner_prod_buffer buffer_size_per_vector s.ApAp)
      (2 * buffer_size_per_vector) s.pAp }

/-- Row sum of the HYB kernel (lines 345–367): the ELL sub-pass with the
skip-if-zero guard followed by the CSR-style overflow sub-pass of the row. -/
def hyb_row_sum (internal_ellnnz internal_size1 : Nat) (elements : Nat → ℚ)
    (coords : Nat → Nat) (csr_row_buffer csr_col_buffer : Nat → Nat)
    (csr_elements : Nat → ℚ) (p : Nat → ℚ) (row : Nat) : ℚ :=
  let ell_sum := (List.range internal_ellnnz).foldl
    (fun sum item_id =>
      let offset := row + item_id * internal_size1
      let val := elements offset
      if val ≠ 0 then sum + p (coords offset) * val else sum) 0
  let col_begin := csr_row_buffer row
  let col_end := csr_row_buffer (row + 1)
  (List.range' col_begin (col_end - col_begin)).foldl
    (fun sum item_id => sum + p (csr_col_buffer item_id) * csr_elements item_id)
    ell_sum

/-- Embedding of `pipelined_cg_prod` for `hyb_matrix`. -/
def pipelined_cg_prod_hyb (size1 internal_size1 internal_ellnnz : Nat)
    (elements : Nat → ℚ) (coords : Nat → Nat)
    (csr_row_buffer csr_col_buffer : Nat → Nat) (csr_elements : Nat → ℚ)
    (p : Nat → ℚ) (Ap : Nat → ℚ)
    (buffer_len : Nat) (inner_prod_buffer : Nat → ℚ) : ProdOut :=
  let buffer_size_per_vector := buffer_len / 3
  let s := (List.range size1).foldl
    (fun (s : ProdState) row =>
      let sum := hyb_row_sum internal_ellnnz internal_size1 elements coords
        csr_row_buffer csr_col_buffer csr_elements p row
      { Ap := upd s.Ap row sum
        ApAp := s.ApAp + sum * sum
        pAp := s.pAp + p row * sum })
    { Ap := Ap, ApAp := 0, pAp := 0 }
  { Ap := s.Ap
    buffer := upd (upd inner_prod_buffer buffer_size_per_vector s.ApAp)
      (2 * buffer_size_per_vector) s.pAp }

/-- State carried through the block loop of the sliced-ELL kernel: the
output vector, the two running sums and the scratch vector
`result_values` (allocated once before the block loop). -/
structure SellState where
  Ap : Nat → ℚ
  ApAp : ℚ
  pAp : ℚ
  scratch : Nat → ℚ

/-- Innermost loop of the sliced-ELL kernel (lines 285–290): for one
column entry of the block, add the contribution of each of the
`rows_per_block` slots into the scratch vector; a zero-valued slot
contributes a literal `0` without its column index being used. -/
def sell_row_loop (rows_per_block : Nat) (column_indices : Nat → Nat)
    (elements : Nat → ℚ) (p : Nat → ℚ) (stride_start : Nat)
    (scratch : Nat → ℚ) : Nat → ℚ :=
  (List.range rows_per_block).foldl
    (fun sc row_in_block =>
      let val := elements (stride_start + row_in_block)
      upd sc row_in_block
        (sc row_in_block +
          if val ≠ 0 then p (column_indices (stride_start + row_in_block)) * val
          else 0))
    scratch

/-- Column-entry loop of the sliced-ELL kernel (lines 278–291) for one
block, starting from `block_start[block_idx]`. -/
def sell_column_loop (rows_per_block current_columns_per_block
    block_start_entry : Nat) (column_indices : Nat → Nat)
    (elements : Nat → ℚ) (p : Nat → ℚ) (scratch : Nat → ℚ) : Nat → ℚ :=
  (List.range current_columns_per_block).foldl
    (fun sc column_entry_index =>
      sell_row_loop rows_per_block column_indices elements p
        (block_start_entry + column_entry_index * rows_per_block) sc)
    scratch

/-- Write-back loop of the sliced-ELL kernel (lines 294–305): each row of
the block whose global index passes the `row < Ap.size()` guard receives
its scratch value and contributes to both running sums. -/
def sell_write_loop (rows_per_block ap_size first_row_in_matrix : Nat)
    (p : Nat → ℚ) (result_values : Nat → ℚ) (s : ProdState) : ProdState :=
  (List.range rows_per_block).foldl
    (fun s row_in_block =>
      let row := first_row_in_matrix + row_in_block
      if row < ap_size then
        let row_result := result_values row_in_block
        { Ap := upd s.Ap row row_result
          ApAp := s.ApAp + row_result * row_result
          pAp := s.pAp + p row * row_result }
      else s)
    s

/-- One iteration of the block loop of the sliced-ELL kernel (lines
271–306): re-zero the scratch vector, run the column-entry loop of the
block, then run the write-back loop. -/
def sell_block_step (rows_per_block ap_size : Nat)
    (columns_per_block block_start column_indices : Nat → Nat)
    (elements : Nat → ℚ) (p : Nat → ℚ) (s : SellState) (block_idx : Nat) :
    SellState :=
  let current_columns_per_block := columns_per_block block_idx
  let scratch0 := (List.range rows_per_block).foldl (fun sc i => upd sc i 0)
    s.scratch
  let scratch1 := sell_column_loop rows_per_block current_columns_per_block
    (block_start block_idx) column_indices elements p scratch0
  let first_row_in_matrix := block_idx * rows_per_block
  let t := sell_write_loop rows_per_block ap_size first_row_in_matrix p scratch1
    { Ap := s.Ap, ApAp := s.ApAp, pAp := s.pAp }
  { Ap := t.Ap, ApAp := t.ApAp, pAp := t.pAp, scratch := scratch1 }

/-- Block loop of the sliced-ELL kernel, run for `num_blocks` blocks
starting from an untouched output vector, zero running sums and the
value-initialised scratch vector. -/
def sell_loop (rows_per_block ap_size : Nat)
    (columns_per_block block_start column_indices : Nat → Nat)
    (elements : Nat → ℚ) (p : Nat → ℚ) (Ap : Nat → ℚ)
    (num_blocks : Nat) : SellState :=
  (List.range num_blocks).foldl
    (sell_block_step rows_per_block ap_size columns_per_block block_start
      column_indices elements p)
    { Ap := Ap, ApAp := 0, pAp := 0, scratch := fun _ => 0 }

/-- Embedding of `pipelined_cg_prod` for `sliced_ell_matrix`.  The number
of blocks is `A.size1() / A.rows_per_block() + 1` as by line 266 of the
source; `ap_size` stands for `Ap.size()`. -/
def pipelined_cg_prod_sliced_ell (size1 rows_per_block : Nat)
    (columns_per_block column_indices block_start : Nat → Nat)
    (elements : Nat → ℚ) (p : Nat → ℚ) (ap_size : Nat) (Ap : Nat → ℚ)
    (buffer_len : Nat) (inner_prod_buffer : Nat → ℚ) : ProdOut :=
  let buffer_size_per_vector := buffer_len / 3
  let num_blocks := size1 / rows_per_block + 1
  let s := sell_loop rows_per_block ap_size columns_per_block block_start
    column_indices elements p Ap num_blocks
  { Ap := s.Ap
    buffer := upd (upd inner_prod_buffer buffer_size_per_vector s.ApAp)
      (2 * buffer_size_per_vector) s.pAp }

/-- The matrix–vector product of the logical `M × N` matrix `L`, at one
row: the reference value against which the format-specialised kernels are
compared. -/
def matVec (N : Nat) (L : Nat → Nat → ℚ) (p : Nat → ℚ) (row : Nat) : ℚ :=
  Finset.sum (Finset.range N) (fun col => L row col * p col)

/-- Contribution of one sliced-ELL slot: zero-valued slots contribute `0`
without their column index being used. -/
def sell_slot_contrib (column_indices : Nat → Nat) (elements : Nat → ℚ)
    (p : Nat → ℚ) (off : Nat) : ℚ :=
  if elements off ≠ 0 then p (column_indices off) * elements off else 0

/-- The value the sliced-ELL kernel accumulates for local row `rib` of
block `b`: the sum of the contributions of that row's slots over the
`columns_per_block b` column entries of the block. -/
def sellBlockRowValue (rows_per_block : Nat)
    (columns_per_block block_start column_indices : Nat → Nat)
    (elements : Nat → ℚ) (p : Nat → ℚ) (b rib : Nat) : ℚ :=
  Finset.sum (Finset.range (columns_per_block b))
    (fun ce => sell_slot_contrib column_indices elements p
      (block_start b + ce * rows_per_block + rib))

/-- The value the sliced-ELL kernel computes for global row `row`: the
block-row value of its block `row / rows_per_block` at local position
`row % rows_per_block`. -/
def sellRowValue (rows_per_block : Nat)
    (columns_per_block block_start column_indices : Nat → Nat)
    (elements : Nat → ℚ) (p : Nat → ℚ) (row : Nat) : ℚ :=
  sellBlockRowValue rows_per_block columns_per_block block_start
    column_indices elements p (row / rows_per_block) (row % rows_per_block)

/-! ### Format representation predicates -/

/-- The CSR data `(row_buffer, col_buffer, elements)` represents the
logical `size1 × N` matrix `L`: every stored column index of a row is in
range, and each logical entry is the sum of the stored values of its
fiber. -/
def csrRepresents (size1 : Nat) (row_buffer col_buffer : Nat → Nat)
    (elements : Nat → ℚ) (N : Nat) (L : Nat → Nat → ℚ) : Prop :=
  ∀ row, row < size1 →
    (∀ i ∈ Finset.Ico (row_buffer row) (row_buffer (row + 1)),
      col_buffer i < N) ∧
    (∀ col, col < N → L row col =
      Finset.sum ((Finset.Ico (row_buffer row) (row_buffer (row + 1))).filter
        (fun i => col_buffer i = col)) elements)

/-- The COO data `(coord_buffer, elements)` with `nnz` entries represents
the logical `M × N` matrix `L`. -/
def cooRepresents (nnz : Nat) (coord_buffer : Nat → Nat) (elements : Nat → ℚ)
    (M N : Nat) (L : Nat → Nat → ℚ) : Prop :=
  (∀ i, i < nnz → coord_buffer (2 * i) < M ∧ coord_buffer (2 * i + 1) < N) ∧
  (∀ row, row < M → ∀ col, col < N → L row col =
    Finset.sum ((Finset.range nnz).filter
      (fun i => coord_buffer (2 * i) = row ∧ coord_buffer (2 * i + 1) = col))
      elements)

/-- The ELL data represents the logical `size1 × N` matrix `L`: nonzero
slots carry in-range column indices, and each logical entry is the sum of
the nonzero stored values of its fiber (a zero slot is "no entry"). -/
def ellRepresents (size1 internal_size1 internal_maxnnz : Nat)
    (elements : Nat → ℚ) (coords : Nat → Nat) (N : Nat)
    (L : Nat → Nat → ℚ) : Prop :=
  ∀ row, row < size1 →
    (∀ item ∈ Finset.range internal_maxnnz,
      elements (row + item * internal_size1) ≠ 0 →
        coords (row + item * internal_size1) < N) ∧
    (∀ col, col < N → L row col =
      Finset.sum ((Finset.range internal_maxnnz).filter
        (fun item => elements (row + item * internal_size1) ≠ 0 ∧
          coords (row + item * internal_size1) = col))
        (fun item => elements (row + item * internal_size1)))

/-- The sliced-ELL data represents the logical `size1 × N` matrix `L`. -/
def sellRepresents (size1 rows_per_block : Nat)
    (columns_per_block block_start column_indices : Nat → Nat)
    (elements : Nat → ℚ) (N : Nat) (L : Nat → Nat → ℚ) : Prop :=
  ∀ row, row < size1 →
    (∀ ce ∈ Finset.range (columns_per_block (row / rows_per_block)),
      elements (block_start (row / rows_per_block) + ce * rows_per_block +
          row % rows_per_block) ≠ 0 →
        column_indices (block_start (row / rows_per_block) +
          ce * rows_per_block + row % rows_per_block) < N) ∧
    (∀ col, col < N → L row col =
      Finset.sum ((Finset.range (columns_per_block (row / rows_per_block))).filter
        (fun ce => elements (block_start (row / rows_per_block) +
            ce * rows_per_block + row % rows_per_block) ≠ 0 ∧
          column_indices (block_start (row / rows_per_block) +
            ce * rows_per_block + row % rows_per_block) = col))
        (fun ce => elements (block_start (row / rows_per_block) +
          ce * rows_per_block + row % rows_per_block)))

/-- The HYB data represents the logical `size1 × N` matrix `L`: each
logical entry is the sum of its ELL-part fiber and its CSR-overflow
fiber. -/
def hybRepresents (size1 internal_size1 internal_ellnnz : Nat)
    (elements : Nat → ℚ) (coords : Nat → Nat)
    (csr_row_buffer csr_col_buffer : Nat → Nat) (csr_elements : Nat → ℚ)
    (N : Nat) (L : Nat → Nat → ℚ) : Prop :=
  ∀ row, row < size1 →
    (∀ item ∈ Finset.range internal_ellnnz,
      elements (row + item * internal_size1) ≠ 0 →
        coords (row + item * internal_size1) < N) ∧
    (∀ i ∈ Finset.Ico (csr_row_buffer row) (csr_row_buffer (row + 1)),
      csr_col_buffer i < N) ∧
    (∀ col, col < N → L row col =
      Finset.sum ((Finset.range internal_ellnnz).filter
        (fun item => elements (row + item * internal_size1) ≠ 0 ∧
          coords (row + item * internal_size1) = col))
        (fun item => elements (row + item * internal_size1)) +
      Finset.sum ((Finset.Ico (csr_row_buffer row)
          (csr_row_buffer (row + 1))).filter
        (fun i => csr_col_buffer i = col)) csr_elements)

/-- The reduction buffer every fused SpMV kernel produces on a matrix
with logical content `L`: `inner_prod(Ap,Ap)` at offset `B` and
`inner_prod(p,Ap)` at offset `2B`, over the original buffer. -/
def cgBuffer (M N : Nat) (L : Nat → Nat → ℚ) (p : Nat → ℚ) (buffer_len : Nat)
    (buf : Nat → ℚ) : Nat → ℚ :=
  upd (upd buf (buffer_len / 3)
      (Finset.sum (Finset.range M)
        (fun row => matVec N L p row * matVec N L p row)))
    (2 * (buffer_len / 3))
    (Finset.sum (Finset.range M) (fun row => p row * matVec N L p row))

/-! ### Concrete test data -/

/-- The vector `[1, 2]` of the vector-update determinism test. -/
def exResult : Nat → ℚ := fun i => if i = 0 then 1 else if i = 1 then 2 else 0

/-- The vector `[1, 1]` of the vector-update determinism test. -/
def exOnes : Nat → ℚ := fun i => if i < 2 then 1 else 0

/-- The vector `[2, 2]` of the vector-update determinism test. -/
def exTwos : Nat → ℚ := fun i => if i < 2 then 2 else 0

/-- The all-zero value buffer. -/
def exZero : Nat → ℚ := fun _ => 0

/-- A sentinel-filled reduction buffer. -/
def exSentinel : Nat → ℚ := fun j => 100 + (j : ℚ)

/-- The logical `1 × 1` matrix with single value `5`. -/
def exL : Nat → Nat → ℚ := fun _ _ => 5

/-- CSR row pointers `[0, 1]` of the `1 × 1` test matrix. -/
def exRb : Nat → Nat := fun i => if i = 0 then 0 else 1

/-- The all-zero index buffer. -/
def exIdx0 : Nat → Nat := fun _ => 0

/-- The constant-`5` value buffer (only slot `0` is ever read in the
`1 × 1` tests). -/
def exEl5 : Nat → ℚ := fun _ => 5

/-- The vector `p = [3]` of the single-nonzero test. -/
def exP3 : Nat → ℚ := fun i => if i = 0 then 3 else 0

/-- Per-block column counts `[1, 0]` for the sliced-ELL test matrix. -/
def exCpb1 : Nat → Nat := fun b => if b = 0 then 1 else 0

/-- Sliced-ELL value buffer `[5, 0, …]` used with two rows per block. -/
def exEl50 : Nat → ℚ := fun i => if i = 0 then 5 else 0

/-! ### Generic loop lemmas -/

/-- A left fold whose step adds `f i` to the accumulator sums `f` over the
index range. -/
theorem foldl_add_range (step : ℚ → Nat → ℚ) (f : Nat → ℚ)
    (hstep : ∀ acc i, step acc i = acc + f i) (a : ℚ) (n : Nat) :
    (List.range n).foldl step a = a + Finset.sum (Finset.range n) f := by
  induction n with
  | zero => simp
  | succ n ih =>
      rw [List.range_succ, List.foldl_append, List.foldl_cons, List.foldl_nil,
        ih, hstep, Finset.sum_range_succ, add_assoc]

/-- Version of `foldl_add_range` for `List.range'`:  the fold starting at
`s` sums `f` over the interval `[s, s + n)`. -/
theorem foldl_add_range' (step : ℚ → Nat → ℚ) (f : Nat → ℚ)
    (hstep : ∀ acc i, step acc i = acc + f i) (a : ℚ) (s n : Nat) :
    (List.range' s n).foldl step a = a + Finset.sum (Finset.Ico s (s + n)) f := by
  rw [List.range'_eq_map_range, List.foldl_map,
    foldl_add_range (fun acc i => step acc (s + i)) (fun i => f (s + i))
      (fun acc i => hstep acc (s + i)) a n,
    Finset.sum_Ico_eq_sum_range]
  simp

/-- The interval bounds produced by the CSR row loop: folding over
`List.range' a (b - a)` sums over `Finset.Ico a b`, also when `b < a`. -/
theorem foldl_add_Ico (step : ℚ → Nat → ℚ) (f : Nat → ℚ)
    (hstep : ∀ acc i, step acc i = acc + f i) (a : ℚ) (lo hi : Nat) :
    (List.range' lo (hi - lo)).foldl step a = a + Finset.sum (Finset.Ico lo hi) f := by
  rw [foldl_add_range' step f hstep a lo (hi - lo)]
  rcases Nat.le_total lo hi with h | h
  · rw [Nat.add_sub_cancel' h]
  · rw [Nat.sub_eq_zero_of_le h, Nat.add_zero]
    rw [Finset.Ico_eq_empty (by omega), Finset.Ico_eq_empty (by omega)]

/-- Folding pointwise stores of `0` over an index range zeroes exactly
that range of the buffer. -/
theorem foldl_upd_zero (g : Nat → ℚ) (n : Nat) (j : Nat) :
    ((List.range n).foldl (fun a i => upd a i 0) g) j =
      if j < n then 0 else g j := by
  induction n with
  | zero => simp
  | succ n ih =>
      rw [List.range_succ, List.foldl_append, List.foldl_cons, List.foldl_nil]
      simp only [upd]
      rcases Nat.lt_trichotomy j n with h | h | h
      · simp [ih, h, Nat.lt_succ_of_lt h, Nat.ne_of_lt h]
      · subst h
        simp [Nat.lt_succ_self]
      · have h1 : ¬ j < n := by omega
        have h2 : ¬ j < n + 1 := by omega
        have h3 : j ≠ n := by omega
        simp [ih, h1, h2, h3]

/-- Invariant of the row loop shared by the CSR, ELL and HYB kernels: a
loop whose body stores a row value `v row` into the output vector and
accumulates `v row * v row` and `p row * v row` produces the rows
`v 0, …, v (n-1)`, leaves the remaining entries untouched and sums the
two reductions over all processed rows. -/
theorem prod_row_loop_spec (step : ProdState → Nat → ProdState)
    (v p : Nat → ℚ)
    (hstep : ∀ s row, step s row =
      { Ap := upd s.Ap row (v row)
        ApAp := s.ApAp + v row * v row
        pAp := s.pAp + p row * v row })
    (Ap0 : Nat → ℚ) (n : Nat) :
    (∀ j, ((List.range n).foldl step { Ap := Ap0, ApAp := 0, pAp := 0 }).Ap j =
        if j < n then v j else Ap0 j) ∧
    ((List.range n).foldl step { Ap := Ap0, ApAp := 0, pAp := 0 }).ApAp =
      Finset.sum (Finset.range n) (fun row => v row * v row) ∧
    ((List.range n).foldl step { Ap := Ap0, ApAp := 0, pAp := 0 }).pAp =
      Finset.sum (Finset.range n) (fun row => p row * v row) := by
  induction n with
  | zero => simp
  | succ n ih =>
      rw [List.range_succ, List.foldl_append, List.foldl_cons, List.foldl_nil,
        hstep]
      refine ⟨fun j => ?_, ?_, ?_⟩
      · simp only [upd]
        rcases Nat.lt_trichotomy j n with h | h | h
        · simp [ih.1 j, h, Nat.lt_succ_of_lt h, Nat.ne_of_lt h]
        · subst h
          simp [Nat.lt_succ_self]
        · have h1 : ¬ j < n := by omega
          have h2 : ¬ j < n + 1 := by omega
          have h3 : j ≠ n := by omega
          simp [ih.1 j, h1, h2, h3]
      · simp [ih.2.1, Finset.sum_range_succ]
      · simp [ih.2.2, Finset.sum_range_succ]

/-- Invariant of the loop of `pipelined_cg_vector_update`: each iteration
touches only its own index, so after `n` iterations the three vectors
carry the recurrence values below `n` and the original values from `n`
on, and the accumulator holds the sum of the squared new residuals. -/
theorem cg_vector_update_loop_spec (alpha beta : ℚ)
    (result0 p0 r0 Ap : Nat → ℚ) (n : Nat) :
    (∀ j, ((List.range n).foldl (cg_vector_update_step alpha beta Ap)
        { result := result0, p := p0, r := r0, acc := 0 }).result j =
      if j < n then result0 j + alpha * p0 j else result0 j) ∧
    (∀ j, ((List.range n).foldl (cg_vector_update_step alpha beta Ap)
        { result := result0, p := p0, r := r0, acc := 0 }).r j =
      if j < n then r0 j - alpha * Ap j else r0 j) ∧
    (∀ j, ((List.range n).foldl (cg_vector_update_step alpha beta Ap)
        { result := result0, p := p0, r := r0, acc := 0 }).p j =
      if j < n then (r0 j - alpha * Ap j) + beta * p0 j else p0 j) ∧
    ((List.range n).foldl (cg_vector_update_step alpha beta Ap)
        { result := result0, p := p0, r := r0, acc := 0 }).acc =
      Finset.sum (Finset.range n)
        (fun i => (r0 i - alpha * Ap i) * (r0 i - alpha * Ap i)) := by
  induction n with
  | zero => simp
  | succ n ih =>
      rw [List.range_succ, List.foldl_append, List.foldl_cons, List.foldl_nil]
      have hpn := ih.2.2.1 n
      have hrn := ih.2.1 n
      have hresn := ih.1 n
      simp only [Nat.lt_irrefl, if_neg] at hpn hrn hresn
      simp only [cg_vector_update_step, hpn, hrn, hresn]
      refine ⟨fun j => ?_, fun j => ?_, fun j => ?_, ?_⟩
      · simp only [upd]
        rcases Nat.lt_trichotomy j n with h | h | h
        · simp [ih.1 j, h, Nat.lt_succ_of_lt h, Nat.ne_of_lt h]
        · subst h
          simp [Nat.lt_succ_self, hresn]
        · have h1 : ¬ j < n := by omega
          have h2 : ¬ j < n + 1 := by omega
          have h3 : j ≠ n := by omega
          simp [ih.1 j, h1, h2, h3]
      · simp only [upd]
        rcases Nat.lt_trichotomy j n with h | h | h
        · simp [ih.2.1 j, h, Nat.lt_succ_of_lt h, Nat.ne_of_lt h]
        · subst h
          simp [Nat.lt_succ_self]
        · have h1 : ¬ j < n := by omega
          have h2 : ¬ j < n + 1 := by omega
          have h3 : j ≠ n := by omega
          simp [ih.2.1 j, h1, h2, h3]
      · simp only [upd]
        rcases Nat.lt_trichotomy j n with h | h | h
        · simp [ih.2.2.1 j, h, Nat.lt_succ_of_lt h, Nat.ne_of_lt h]
        · subst h
          simp [Nat.lt_succ_self]
        · have h1 : ¬ j < n := by omega
          have h2 : ¬ j < n + 1 := by omega
          have h3 : j ≠ n := by omega
          simp [ih.2.2.1 j, h1, h2, h3]
      · simp [ih.2.2.2, Finset.sum_range_succ]

/-- Invariant of the second pass of the COO kernel: the pair of running
sums accumulates the two reductions componentwise. -/
theorem pair_loop_spec (step : ℚ × ℚ → Nat → ℚ × ℚ) (f g : Nat → ℚ)
    (hstep : ∀ s i, step s i = (s.1 + f i, s.2 + g i)) (n : Nat) :
    (List.range n).foldl step ((0 : ℚ), (0 : ℚ)) =
      (Finset.sum (Finset.range n) f, Finset.sum (Finset.range n) g) := by
  induction n with
  | zero => simp
  | succ n ih =>
      rw [List.range_succ, List.foldl_append, List.foldl_cons, List.foldl_nil,
        ih, hstep, Finset.sum_range_succ, Finset.sum_range_succ]

/-- Invariant of the scatter pass of the COO kernel: each entry adds its
contribution to the row selected by its stored row index, so afterwards
every index of the output vector holds its initial value plus the sum of
the contributions of the entries targeting it. -/
theorem coo_scatter_spec (coord_buffer : Nat → Nat) (elements : Nat → ℚ)
    (p : Nat → ℚ) (A0 : Nat → ℚ) (n : Nat) (j : Nat) :
    ((List.range n).foldl
      (fun a i => upd a (coord_buffer (2 * i))
        (a (coord_buffer (2 * i)) +
          elements i * p (coord_buffer (2 * i + 1)))) A0) j =
    A0 j + Finset.sum (Finset.range n)
      (fun i => if coord_buffer (2 * i) = j then
          elements i * p (coord_buffer (2 * i + 1)) else 0) := by
  induction n with
  | zero => simp
  | succ n ih =>
      rw [List.range_succ, List.foldl_append, List.foldl_cons, List.foldl_nil]
      simp only [upd, Finset.sum_range_succ]
      by_cases h : j = coord_buffer (2 * n)
      · subst h
        rw [if_pos rfl, ih, if_pos rfl, add_assoc]
      · rw [if_neg h, ih, if_neg (fun hc => h hc.symm), add_zero]

/-- Invariant of a loop that adds `g i` into slot `i` of a scratch buffer
for every index of the range: the shape of the innermost sliced-ELL loop. -/
theorem scratch_accum_loop_spec (step : (Nat → ℚ) → Nat → (Nat → ℚ))
    (g : Nat → ℚ) (hstep : ∀ sc i, step sc i = upd sc i (sc i + g i))
    (sc0 : Nat → ℚ) (n j : Nat) :
    ((List.range n).foldl step sc0) j = if j < n then sc0 j + g j else sc0 j := by
  induction n with
  | zero => simp
  | succ n ih =>
      rw [List.range_succ, List.foldl_append, List.foldl_cons, List.foldl_nil,
        hstep]
      simp only [upd]
      rcases Nat.lt_trichotomy j n with h | h | h
      · simp [ih, h, Nat.lt_succ_of_lt h, Nat.ne_of_lt h]
      · subst h
        simp [ih, Nat.lt_succ_self]
      · have h1 : ¬ j < n := by omega
        have h2 : ¬ j < n + 1 := by omega
        have h3 : j ≠ n := by omega
        simp [ih, h1, h2, h3]

/-- One pass of the innermost sliced-ELL loop adds each slot's
contribution to its local row of the scratch vector. -/
theorem sell_row_loop_spec (rows_per_block : Nat) (column_indices : Nat → Nat)
    (elements : Nat → ℚ) (p : Nat → ℚ) (stride_start : Nat)
    (scratch : Nat → ℚ) (j : Nat) :
    sell_row_loop rows_per_block column_indices elements p stride_start scratch j =
      if j < rows_per_block then
        scratch j + sell_slot_contrib column_indices elements p (stride_start + j)
      else scratch j :=
  scratch_accum_loop_spec _
    (fun rib => sell_slot_contrib column_indices elements p (stride_start + rib))
    (fun _ _ => rfl) scratch rows_per_block j

/-- The column-entry loop of a sliced-ELL block accumulates, for every
local row of the block, the contributions of all column entries. -/
theorem sell_column_loop_spec (rows_per_block k block_start_entry : Nat)
    (column_indices : Nat → Nat) (elements : Nat → ℚ) (p : Nat → ℚ)
    (scratch : Nat → ℚ) (j : Nat) :
    sell_column_loop rows_per_block k block_start_entry column_indices
        elements p scratch j =
      if j < rows_per_block then
        scratch j + Finset.sum (Finset.range k)
          (fun ce => sell_slot_contrib column_indices elements p
            (block_start_entry + ce * rows_per_block + j))
      else scratch j := by
  induction k with
  | zero => simp [sell_column_loop]
  | succ n ih =>
      rw [sell_column_loop, List.range_succ, List.foldl_append, List.foldl_cons,
        List.foldl_nil]
      rw [sell_column_loop] at ih
      rw [sell_row_loop_spec]
      by_cases h : j < rows_per_block
      · simp [h, ih, Finset.sum_range_succ, add_assoc]
      · simp [h, ih]

/-- Invariant of a guarded write-back loop of the sliced-ELL shape:
rows passing the `row < Ap.size()` guard receive their scratch value and
feed both running sums; rows failing the guard change nothing. -/
theorem guarded_write_loop_spec (step : ProdState → Nat → ProdState)
    (ap_size frm : Nat) (p rv : Nat → ℚ)
    (hstep : ∀ s rib, step s rib =
      if frm + rib < ap_size then
        { Ap := upd s.Ap (frm + rib) (rv rib)
          ApAp := s.ApAp + rv rib * rv rib
          pAp := s.pAp + p (frm + rib) * rv rib }
      else s)
    (s0 : ProdState) (n : Nat) :
    (∀ j, ((List.range n).foldl step s0).Ap j =
      if frm ≤ j ∧ j < frm + n ∧ j < ap_size then rv (j - frm) else s0.Ap j) ∧
    ((List.range n).foldl step s0).ApAp =
      s0.ApAp + Finset.sum (Finset.range n)
        (fun rib => if frm + rib < ap_size then rv rib * rv rib else 0) ∧
    ((List.range n).foldl step s0).pAp =
      s0.pAp + Finset.sum (Finset.range n)
        (fun rib => if frm + rib < ap_size then p (frm + rib) * rv rib else 0) := by
  induction n with
  | zero =>
      refine ⟨fun j => ?_, by simp, by simp⟩
      rw [List.range_zero, List.foldl_nil]
      by_cases hc : frm ≤ j ∧ j < frm + 0 ∧ j < ap_size
      · exact absurd hc (by omega)
      · rw [if_neg hc]
  | succ n ih =>
      rw [List.range_succ, List.foldl_append, List.foldl_cons, List.foldl_nil,
        hstep]
      by_cases hg : frm + n < ap_size
      · rw [if_pos hg]
        refine ⟨fun j => ?_, ?_, ?_⟩
        · simp only [upd]
          by_cases hj : j = frm + n
          · subst hj
            have hc : frm ≤ frm + n ∧ frm + n < frm + (n + 1) ∧
                frm + n < ap_size := by omega
            rw [if_pos rfl, if_pos hc, Nat.add_sub_cancel_left]
          · rw [if_neg hj, ih.1 j]
            by_cases hc : frm ≤ j ∧ j < frm + n ∧ j < ap_size
            · have hc2 : frm ≤ j ∧ j < frm + (n + 1) ∧ j < ap_size := by omega
              rw [if_pos hc, if_pos hc2]
            · have hc2 : ¬ (frm ≤ j ∧ j < frm + (n + 1) ∧ j < ap_size) := by
                omega
              rw [if_neg hc, if_neg hc2]
        · rw [ih.2.1, Finset.sum_range_succ, if_pos hg, add_assoc]
        · rw [ih.2.2, Finset.sum_range_succ, if_pos hg, add_assoc]
      · rw [if_neg hg]
        refine ⟨fun j => ?_, ?_, ?_⟩
        · rw [ih.1 j]
          by_cases hc : frm ≤ j ∧ j < frm + n ∧ j < ap_size
          · have hc2 : frm ≤ j ∧ j < frm + (n + 1) ∧ j < ap_size := by omega
            rw [if_pos hc, if_pos hc2]
          · have hc2 : ¬ (frm ≤ j ∧ j < frm + (n + 1) ∧ j < ap_size) := by
              omega
            rw [if_neg hc, if_neg hc2]
        · rw [ih.2.1, Finset.sum_range_succ, if_neg hg, add_zero]
        · rw [ih.2.2, Finset.sum_range_succ, if_neg hg, add_zero]

/-- Specialisation of `guarded_write_loop_spec` to `sell_write_loop`. -/
theorem sell_write_loop_spec (rows_per_block ap_size first_row_in_matrix : Nat)
    (p : Nat → ℚ) (result_values : Nat → ℚ) (s : ProdState) :
    (∀ j, (sell_write_loop rows_per_block ap_size first_row_in_matrix p
        result_values s).Ap j =
      if first_row_in_matrix ≤ j ∧ j < first_row_in_matrix + rows_per_block ∧
          j < ap_size then
        result_values (j - first_row_in_matrix)
      else s.Ap j) ∧
    (sell_write_loop rows_per_block ap_size first_row_in_matrix p
        result_values s).ApAp =
      s.ApAp + Finset.sum (Finset.range rows_per_block)
        (fun rib => if first_row_in_matrix + rib < ap_size then
          result_values rib * result_values rib else 0) ∧
    (sell_write_loop rows_per_block ap_size first_row_in_matrix p
        result_values s).pAp =
      s.pAp + Finset.sum (Finset.range rows_per_block)
        (fun rib => if first_row_in_matrix + rib < ap_size then
          p (first_row_in_matrix + rib) * result_values rib else 0) :=
  guarded_write_loop_spec _ ap_size first_row_in_matrix p result_values
    (fun _ _ => rfl) s rows_per_block

/-- A sum of guarded terms over a longer range restricts to the guard's
range. -/
theorem sum_range_ite_le (f : Nat → ℚ) (M X : Nat) (h : M ≤ X) :
    Finset.sum (Finset.range X) (fun j => if j < M then f j else 0) =
      Finset.sum (Finset.range M) f := by
  rw [← Finset.sum_subset (Finset.range_subset.mpr h)
    (fun x _ hx => if_neg (Finset.mem_range.not.mp hx))]
  exact Finset.sum_congr rfl (fun x hx => if_pos (Finset.mem_range.mp hx))

/-- A global row inside block `b` evaluates `sellRowValue` through its
block and local position. -/
theorem sellRowValue_block (rows_per_block : Nat) (hrpb : 0 < rows_per_block)
    (columns_per_block block_start column_indices : Nat → Nat)
    (elements : Nat → ℚ) (p : Nat → ℚ) (b rib : Nat) (h : rib < rows_per_block) :
    sellRowValue rows_per_block columns_per_block block_start column_indices
        elements p (b * rows_per_block + rib) =
      sellBlockRowValue rows_per_block columns_per_block block_start
        column_indices elements p b rib := by
  unfold sellRowValue
  have hdiv : (b * rows_per_block + rib) / rows_per_block = b := by
    rw [Nat.add_comm, Nat.add_mul_div_right rib b hrpb, Nat.div_eq_of_lt h,
      Nat.zero_add]
  have hmod : (b * rows_per_block + rib) % rows_per_block = rib := by
    rw [Nat.add_comm, Nat.add_mul_mod_self_right, Nat.mod_eq_of_lt h]
  rw [hdiv, hmod]

/-- Effect of one sliced-ELL block on the kernel state: the rows of the
block passing the output-size guard receive their block-row values, and
only those rows feed the two running sums. -/
theorem sell_block_step_spec (rows_per_block ap_size : Nat)
    (columns_per_block block_start column_indices : Nat → Nat)
    (elements : Nat → ℚ) (p : Nat → ℚ) (s : SellState) (b : Nat) :
    (∀ j, (sell_block_step rows_per_block ap_size columns_per_block block_start
        column_indices elements p s b).Ap j =
      if b * rows_per_block ≤ j ∧ j < b * rows_per_block + rows_per_block ∧
          j < ap_size then
        sellBlockRowValue rows_per_block columns_per_block block_start
          column_indices elements p b (j - b * rows_per_block)
      else s.Ap j) ∧
    (sell_block_step rows_per_block ap_size columns_per_block block_start
        column_indices elements p s b).ApAp =
      s.ApAp + Finset.sum (Finset.range rows_per_block)
        (fun rib => if b * rows_per_block + rib < ap_size then
          sellBlockRowValue rows_per_block columns_per_block block_start
              column_indices elements p b rib *
            sellBlockRowValue rows_per_block columns_per_block block_start
              column_indices elements p b rib
          else 0) ∧
    (sell_block_step rows_per_block ap_size columns_per_block block_start
        column_indices elements p s b).pAp =
      s.pAp + Finset.sum (Finset.range rows_per_block)
        (fun rib => if b * rows_per_block + rib < ap_size then
          p (b * rows_per_block + rib) *
            sellBlockRowValue rows_per_block columns_per_block block_start
              column_indices elements p b rib
          else 0) := by
  have hscr : ∀ rib, rib < rows_per_block →
      sell_column_loop rows_per_block (columns_per_block b) (block_start b)
        column_indices elements p
        ((List.range rows_per_block).foldl (fun sc i => upd sc i 0) s.scratch)
        rib =
      sellBlockRowValue rows_per_block columns_per_block block_start
        column_indices elements p b rib := by
    intro rib hrib
    rw [sell_column_loop_spec, if_pos hrib, foldl_upd_zero, if_pos hrib,
      zero_add]
    rfl
  have h := sell_write_loop_spec rows_per_block ap_size (b * rows_per_block) p
    (sell_column_loop rows_per_block (columns_per_block b) (block_start b)
      column_indices elements p
      ((List.range rows_per_block).foldl (fun sc i => upd sc i 0) s.scratch))
    { Ap := s.Ap, ApAp := s.ApAp, pAp := s.pAp }
  refine ⟨fun j => ?_, ?_, ?_⟩
  · have hj := h.1 j
    by_cases hc : b * rows_per_block ≤ j ∧
        j < b * rows_per_block + rows_per_block ∧ j < ap_size
    · rw [if_pos hc] at hj
      rw [if_pos hc]
      rw [hscr (j - b * rows_per_block) (by omega)] at hj
      exact hj
    · rw [if_neg hc] at hj
      rw [if_neg hc]
      exact hj
  · have h2 := h.2.1
    rw [Finset.sum_congr rfl (fun rib hrib => ?_)] at h2
    · exact h2
    · rw [hscr rib (Finset.mem_range.mp hrib)]
  · have h2 := h.2.2
    rw [Finset.sum_congr rfl (fun rib hrib => ?_)] at h2
    · exact h2
    · rw [hscr rib (Finset.mem_range.mp hrib)]

/-- Invariant of the sliced-ELL block loop: after `nb` blocks, rows below
`nb * rows_per_block` that pass the output-size guard hold their
`sellRowValue`, all other entries are untouched, and the running sums
range over exactly the guarded rows processed so far. -/
theorem sell_loop_spec (rows_per_block ap_size : Nat)
    (hrpb : 0 < rows_per_block)
    (columns_per_block block_start column_indices : Nat → Nat)
    (elements : Nat → ℚ) (p : Nat → ℚ) (Ap : Nat → ℚ) (nb : Nat) :
    (∀ j, (sell_loop rows_per_block ap_size columns_per_block block_start
        column_indices elements p Ap nb).Ap j =
      if j < nb * rows_per_block ∧ j < ap_size then
        sellRowValue rows_per_block columns_per_block block_start
          column_indices elements p j
      else Ap j) ∧
    (sell_loop rows_per_block ap_size columns_per_block block_start
        column_indices elements p Ap nb).ApAp =
      Finset.sum (Finset.range (nb * rows_per_block))
        (fun j => if j < ap_size then
          sellRowValue rows_per_block columns_per_block block_start
              column_indices elements p j *
            sellRowValue rows_per_block columns_per_block block_start
              column_indices elements p j
          else 0) ∧
    (sell_loop rows_per_block ap_size columns_per_block block_start
        column_indices elements p Ap nb).pAp =
      Finset.sum (Finset.range (nb * rows_per_block))
        (fun j => if j < ap_size then
          p j * sellRowValue rows_per_block columns_per_block block_start
            column_indices elements p j
          else 0) := by
  induction nb with
  | zero =>
      refine ⟨fun j => ?_, by simp [sell_loop], by simp [sell_loop]⟩
      have hc : ¬ (j < 0 * rows_per_block ∧ j < ap_size) := by omega
      simp [sell_loop, hc]
  | succ nb ih =>
      have hloop : sell_loop rows_per_block ap_size columns_per_block
          block_start column_indices elements p Ap (nb + 1) =
        sell_block_step rows_per_block ap_size columns_per_block block_start
          column_indices elements p
          (sell_loop rows_per_block ap_size columns_per_block block_start
            column_indices elements p Ap nb) nb := by
        unfold sell_loop
        rw [List.range_succ, List.foldl_append, List.foldl_cons, List.foldl_nil]
      have hstep := sell_block_step_spec rows_per_block ap_size
        columns_per_block block_start column_indices elements p
        (sell_loop rows_per_block ap_size columns_per_block block_start
          column_indices elements p Ap nb) nb
      have hrv : ∀ rib, rib < rows_per_block →
          sellBlockRowValue rows_per_block columns_per_block block_start
            column_indices elements p nb rib =
          sellRowValue rows_per_block columns_per_block block_start
            column_indices elements p (nb * rows_per_block + rib) := by
        intro rib hrib
        rw [sellRowValue_block rows_per_block hrpb columns_per_block
          block_start column_indices elements p nb rib hrib]
      have hsm : (nb + 1) * rows_per_block =
          nb * rows_per_block + rows_per_block := by ring
      refine ⟨fun j => ?_, ?_, ?_⟩
      · rw [hloop, hstep.1 j]
        by_cases hc : nb * rows_per_block ≤ j ∧
            j < nb * rows_per_block + rows_per_block ∧ j < ap_size
        · rw [if_pos hc]
          have hc2 : j < (nb + 1) * rows_per_block ∧ j < ap_size := by omega
          rw [if_pos hc2, hrv (j - nb * rows_per_block) (by omega)]
          congr 1
          omega
        · rw [if_neg hc, ih.1 j]
          by_cases hc2 : j < nb * rows_per_block ∧ j < ap_size
          · have hc3 : j < (nb + 1) * rows_per_block ∧ j < ap_size := by omega
            rw [if_pos hc2, if_pos hc3]
          · have hc3 : ¬ (j < (nb + 1) * rows_per_block ∧ j < ap_size) := by
              omega
            rw [if_neg hc2, if_neg hc3]
      · rw [hloop, hstep.2.1, ih.2.1, hsm, Finset.sum_range_add]
        congr 1
        refine Finset.sum_congr rfl (fun rib hrib => ?_)
        rw [hrv rib (Finset.mem_range.mp hrib)]
      · rw [hloop, hstep.2.2, ih.2.2, hsm, Finset.sum_range_add]
        congr 1
        refine Finset.sum_congr rfl (fun rib hrib => ?_)
        rw [hrv rib (Finset.mem_range.mp hrib)]

/-! ### Kernel-level characterisations -/

/-- Full characterisation of `pipelined_cg_vector_update`: closed forms
for the three updated vectors and the reduction buffer. -/
theorem pipelined_cg_vector_update_spec (size : Nat) (result0 : Nat → ℚ)
    (alpha : ℚ) (p0 r0 Ap : Nat → ℚ) (beta : ℚ) (buf : Nat → ℚ) :
    (∀ j, (pipelined_cg_vector_update size result0 alpha p0 r0 Ap beta buf).result j =
      if j < size then result0 j + alpha * p0 j else result0 j) ∧
    (∀ j, (pipelined_cg_vector_update size result0 alpha p0 r0 Ap beta buf).r j =
      if j < size then r0 j - alpha * Ap j else r0 j) ∧
    (∀ j, (pipelined_cg_vector_update size result0 alpha p0 r0 Ap beta buf).p j =
      if j < size then (r0 j - alpha * Ap j) + beta * p0 j else p0 j) ∧
    (pipelined_cg_vector_update size result0 alpha p0 r0 Ap beta buf).buffer =
      upd buf 0 (Finset.sum (Finset.range size)
        (fun i => (r0 i - alpha * Ap i) * (r0 i - alpha * Ap i))) := by
  have h := cg_vector_update_loop_spec alpha beta result0 p0 r0 Ap size
  refine ⟨fun j => h.1 j, fun j => h.2.1 j, fun j => h.2.2.1 j, ?_⟩
  rw [← h.2.2.2]
  rfl

/-- Full characterisation of the CSR kernel: each row of the output is
its dot product, untouched entries stay, and the buffer receives the two
reduction sums at offsets `B` and `2B` in source order. -/
theorem pipelined_cg_prod_csr_spec (size1 : Nat)
    (row_buffer col_buffer : Nat → Nat) (elements : Nat → ℚ) (p : Nat → ℚ)
    (Ap : Nat → ℚ) (buffer_len : Nat) (buf : Nat → ℚ) :
    (∀ j, (pipelined_cg_prod_csr size1 row_buffer col_buffer elements p Ap
        buffer_len buf).Ap j =
      if j < size1 then
        csr_row_dot elements col_buffer p (row_buffer j) (row_buffer (j + 1))
      else Ap j) ∧
    (pipelined_cg_prod_csr size1 row_buffer col_buffer elements p Ap
        buffer_len buf).buffer =
      upd (upd buf (buffer_len / 3)
          (Finset.sum (Finset.range size1) (fun row =>
            csr_row_dot elements col_buffer p (row_buffer row)
                (row_buffer (row + 1)) *
              csr_row_dot elements col_buffer p (row_buffer row)
                (row_buffer (row + 1)))))
        (2 * (buffer_len / 3))
        (Finset.sum (Finset.range size1) (fun row =>
          p row * csr_row_dot elements col_buffer p (row_buffer row)
            (row_buffer (row + 1)))) := by
  have h := prod_row_loop_spec _
    (fun row => csr_row_dot elements col_buffer p (row_buffer row)
      (row_buffer (row + 1)))
    p (fun _ _ => rfl) Ap size1
  refine ⟨fun j => h.1 j, ?_⟩
  rw [← h.2.1, ← h.2.2]
  rfl

/-- Full characterisation of the ELL kernel. -/
theorem pipelined_cg_prod_ell_spec (size1 internal_size1 internal_maxnnz : Nat)
    (elements : Nat → ℚ) (coords : Nat → Nat) (p : Nat → ℚ) (Ap : Nat → ℚ)
    (buffer_len : Nat) (buf : Nat → ℚ) :
    (∀ j, (pipelined_cg_prod_ell size1 internal_size1 internal_maxnnz elements
        coords p Ap buffer_len buf).Ap j =
      if j < size1 then
        ell_row_sum internal_maxnnz internal_size1 elements coords p j
      else Ap j) ∧
    (pipelined_cg_prod_ell size1 internal_size1 internal_maxnnz elements
        coords p Ap buffer_len buf).buffer =
      upd (upd buf (buffer_len / 3)
          (Finset.sum (Finset.range size1) (fun row =>
            ell_row_sum internal_maxnnz internal_size1 elements coords p row *
              ell_row_sum internal_maxnnz internal_size1 elements coords p row)))
        (2 * (buffer_len / 3))
        (Finset.sum (Finset.range size1) (fun row =>
          p row *
            ell_row_sum internal_maxnnz internal_size1 elements coords p row)) := by
  have h := prod_row_loop_spec _
    (fun row => ell_row_sum internal_maxnnz internal_size1 elements coords p row)
    p (fun _ _ => rfl) Ap size1
  refine ⟨fun j => h.1 j, ?_⟩
  rw [← h.2.1, ← h.2.2]
  rfl

/-- Full characterisation of the HYB kernel. -/
theorem pipelined_cg_prod_hyb_spec (size1 internal_size1 internal_ellnnz : Nat)
    (elements : Nat → ℚ) (coords : Nat → Nat)
    (csr_row_buffer csr_col_buffer : Nat → Nat) (csr_elements : Nat → ℚ)
    (p : Nat → ℚ) (Ap : Nat → ℚ) (buffer_len : Nat) (buf : Nat → ℚ) :
    (∀ j, (pipelined_cg_prod_hyb size1 internal_size1 internal_ellnnz elements
        coords csr_row_buffer csr_col_buffer csr_elements p Ap
        buffer_len buf).Ap j =
      if j < size1 then
        hyb_row_sum internal_ellnnz internal_size1 elements coords
          csr_row_buffer csr_col_buffer csr_elements p j
      else Ap j) ∧
    (pipelined_cg_prod_hyb size1 internal_size1 internal_ellnnz elements
        coords csr_row_buffer csr_col_buffer csr_elements p Ap
        buffer_len buf).buffer =
      upd (upd buf (buffer_len / 3)
          (Finset.sum (Finset.range size1) (fun row =>
            hyb_row_sum internal_ellnnz internal_size1 elements coords
                csr_row_buffer csr_col_buffer csr_elements p row *
              hyb_row_sum internal_ellnnz internal_size1 elements coords
                csr_row_buffer csr_col_buffer csr_elements p row)))
        (2 * (buffer_len / 3))
        (Finset.sum (Finset.range size1) (fun row =>
          p row * hyb_row_sum internal_ellnnz internal_size1 elements coords
            csr_row_buffer csr_col_buffer csr_elements p row)) := by
  have h := prod_row_loop_spec _
    (fun row => hyb_row_sum internal_ellnnz internal_size1 elements coords
      csr_row_buffer csr_col_buffer csr_elements p row)
    p (fun _ _ => rfl) Ap size1
  refine ⟨fun j => h.1 j, ?_⟩
  rw [← h.2.1, ← h.2.2]
  rfl

/-- Full characterisation of the COO kernel: the output vector is zeroed
over its whole length and then scatter-accumulated, and the reductions
are computed from the completed output vector. -/
theorem pipelined_cg_prod_coo_spec (nnz : Nat) (coord_buffer : Nat → Nat)
    (elements : Nat → ℚ) (p : Nat → ℚ) (ap_size : Nat) (Ap : Nat → ℚ)
    (buffer_len : Nat) (buf : Nat → ℚ) :
    (∀ j, (pipelined_cg_prod_coo nnz coord_buffer elements p ap_size Ap
        buffer_len buf).Ap j =
      (if j < ap_size then 0 else Ap j) +
        Finset.sum (Finset.range nnz) (fun i =>
          if coord_buffer (2 * i) = j then
            elements i * p (coord_buffer (2 * i + 1))
          else 0)) ∧
    (pipelined_cg_prod_coo nnz coord_buffer elements p ap_size Ap
        buffer_len buf).buffer =
      upd (upd buf (buffer_len / 3)
          (Finset.sum (Finset.range ap_size) (fun i =>
            (pipelined_cg_prod_coo nnz coord_buffer elements p ap_size Ap
                buffer_len buf).Ap i *
              (pipelined_cg_prod_coo nnz coord_buffer elements p ap_size Ap
                buffer_len buf).Ap i)))
        (2 * (buffer_len / 3))
        (Finset.sum (Finset.range ap_size) (fun i =>
          (pipelined_cg_prod_coo nnz coord_buffer elements p ap_size Ap
              buffer_len buf).Ap i * p i)) := by
  constructor
  · intro j
    have h2 := coo_scatter_spec coord_buffer elements p
      ((List.range ap_size).foldl (fun a i => upd a i 0) Ap) nnz j
    rw [foldl_upd_zero] at h2
    exact h2
  · have h := pair_loop_spec _
      (fun i => (pipelined_cg_prod_coo nnz coord_buffer elements p ap_size Ap
          buffer_len buf).Ap i *
        (pipelined_cg_prod_coo nnz coord_buffer elements p ap_size Ap
          buffer_len buf).Ap i)
      (fun i => (pipelined_cg_prod_coo nnz coord_buffer elements p ap_size Ap
          buffer_len buf).Ap i * p i)
      (fun _ _ => rfl) ap_size
    have h1 := congrArg Prod.fst h
    have h2 := congrArg Prod.snd h
    dsimp only at h1 h2
    rw [← h1, ← h2]
    rfl

/-- Full characterisation of the sliced-ELL kernel when the output vector
length equals the row count: every logical row receives its
`sellRowValue`, rows at or beyond the row count are untouched, and the
two reduction sums range over exactly the logical rows. -/
theorem pipelined_cg_prod_sliced_ell_spec (size1 rows_per_block : Nat)
    (hrpb : 0 < rows_per_block)
    (columns_per_block column_indices block_start : Nat → Nat)
    (elements : Nat → ℚ) (p : Nat → ℚ) (Ap : Nat → ℚ)
    (buffer_len : Nat) (buf : Nat → ℚ) :
    (∀ j, (pipelined_cg_prod_sliced_ell size1 rows_per_block columns_per_block
        column_indices block_start elements p size1 Ap buffer_len buf).Ap j =
      if j < size1 then
        sellRowValue rows_per_block columns_per_block block_start
          column_indices elements p j
      else Ap j) ∧
    (pipelined_cg_prod_sliced_ell size1 rows_per_block columns_per_block
        column_indices block_start elements p size1 Ap buffer_len buf).buffer =
      upd (upd buf (buffer_len / 3)
          (Finset.sum (Finset.range size1) (fun row =>
            sellRowValue rows_per_block columns_per_block block_start
                column_indices elements p row *
              sellRowValue rows_per_block columns_per_block block_start
                column_indices elements p row)))
        (2 * (buffer_len / 3))
        (Finset.sum (Finset.range size1) (fun row =>
          p row * sellRowValue rows_per_block columns_per_block block_start
            column_indices elements p row)) := by
  have h := sell_loop_spec rows_per_block size1 hrpb columns_per_block
    block_start column_indices elements p Ap (size1 / rows_per_block + 1)
  have hcov : size1 ≤ (size1 / rows_per_block + 1) * rows_per_block :=
    Nat.le_of_lt ((Nat.div_lt_iff_lt_mul hrpb).mp (Nat.lt_succ_self _))
  constructor
  · intro j
    have hj := h.1 j
    by_cases hc : j < size1
    · rw [if_pos ⟨by omega, hc⟩] at hj
      rw [if_pos hc]
      exact hj
    · rw [if_neg (by omega : ¬ ((j < (size1 / rows_per_block + 1) *
          rows_per_block) ∧ j < size1))] at hj
      rw [if_neg hc]
      exact hj
  · have hA : (sell_loop rows_per_block size1 columns_per_block block_start
        column_indices elements p Ap (size1 / rows_per_block + 1)).ApAp =
        Finset.sum (Finset.range size1) (fun row =>
          sellRowValue rows_per_block columns_per_block block_start
              column_indices elements p row *
            sellRowValue rows_per_block columns_per_block block_start
              column_indices elements p row) := by
      rw [h.2.1, sum_range_ite_le _ _ _ hcov]
    have hp : (sell_loop rows_per_block size1 columns_per_block block_start
        column_indices elements p Ap (size1 / rows_per_block + 1)).pAp =
        Finset.sum (Finset.range size1) (fun row =>
          p row * sellRowValue rows_per_block columns_per_block block_start
            column_indices elements p row) := by
      rw [h.2.2, sum_range_ite_le _ _ _ hcov]
    rw [← hA, ← hp]
    rfl

/-! ### Row values as finite sums -/

/-- The CSR row dot product as a sum over the row's index interval. -/
theorem csr_row_dot_eq_sum (elements : Nat → ℚ) (col_buffer : Nat → Nat)
    (p : Nat → ℚ) (lo hi : Nat) :
    csr_row_dot elements col_buffer p lo hi =
      Finset.sum (Finset.Ico lo hi) (fun i => elements i * p (col_buffer i)) := by
  unfold csr_row_dot
  rw [foldl_add_Ico _ (fun i => elements i * p (col_buffer i))
    (fun _ _ => rfl) 0 lo hi, zero_add]

/-- The ELL row sum as a sum of guarded slot contributions. -/
theorem ell_row_sum_eq_sum (internal_maxnnz internal_size1 : Nat)
    (elements : Nat → ℚ) (coords : Nat → Nat) (p : Nat → ℚ) (row : Nat) :
    ell_row_sum internal_maxnnz internal_size1 elements coords p row =
      Finset.sum (Finset.range internal_maxnnz) (fun item =>
        if elements (row + item * internal_size1) ≠ 0 then
          p (coords (row + item * internal_size1)) *
            elements (row + item * internal_size1)
        else 0) := by
  unfold ell_row_sum
  rw [foldl_add_range _ (fun item =>
      if elements (row + item * internal_size1) ≠ 0 then
        p (coords (row + item * internal_size1)) *
          elements (row + item * internal_size1)
      else 0)
    (fun acc item => by
      dsimp only
      by_cases h : elements (row + item * internal_size1) = 0
      · simp [h]
      · simp [h]) 0 internal_maxnnz, zero_add]

/-- The HYB row sum as the sum of its ELL sub-pass and its CSR-style
overflow sub-pass. -/
theorem hyb_row_sum_eq_sum (internal_ellnnz internal_size1 : Nat)
    (elements : Nat → ℚ) (coords : Nat → Nat)
    (csr_row_buffer csr_col_buffer : Nat → Nat) (csr_elements : Nat → ℚ)
    (p : Nat → ℚ) (row : Nat) :
    hyb_row_sum internal_ellnnz internal_size1 elements coords csr_row_buffer
        csr_col_buffer csr_elements p row =
      Finset.sum (Finset.range internal_ellnnz) (fun item =>
        if elements (row + item * internal_size1) ≠ 0 then
          p (coords (row + item * internal_size1)) *
            elements (row + item * internal_size1)
        else 0) +
      Finset.sum (Finset.Ico (csr_row_buffer row) (csr_row_buffer (row + 1)))
        (fun i => p (csr_col_buffer i) * csr_elements i) := by
  unfold hyb_row_sum
  rw [foldl_add_Ico _ (fun i => p (csr_col_buffer i) * csr_elements i)
    (fun _ _ => rfl) _ (csr_row_buffer row) (csr_row_buffer (row + 1))]
  congr 1
  rw [foldl_add_range _ (fun item =>
      if elements (row + item * internal_size1) ≠ 0 then
        p (coords (row + item * internal_size1)) *
          elements (row + item * internal_size1)
      else 0)
    (fun acc item => by
      dsimp only
      by_cases h : elements (row + item * internal_size1) = 0
      · simp [h]
      · simp [h]) 0 internal_ellnnz, zero_add]

/-- The sliced-ELL row value as a sum of guarded slot contributions. -/
theorem sellRowValue_eq_sum (rows_per_block : Nat)
    (columns_per_block block_start column_indices : Nat → Nat)
    (elements : Nat → ℚ) (p : Nat → ℚ) (row : Nat) :
    sellRowValue rows_per_block columns_per_block block_start column_indices
        elements p row =
      Finset.sum (Finset.range (columns_per_block (row / rows_per_block)))
        (fun ce =>
          if elements (block_start (row / rows_per_block) +
              ce * rows_per_block + row % rows_per_block) ≠ 0 then
            p (column_indices (block_start (row / rows_per_block) +
                ce * rows_per_block + row % rows_per_block)) *
              elements (block_start (row / rows_per_block) +
                ce * rows_per_block + row % rows_per_block)
          else 0) := by
  unfold sellRowValue sellBlockRowValue sell_slot_contrib
  rfl

/-! ### Fiberwise regrouping of row sums -/

/-- Regroup a weighted sum over arbitrary indices by the column each
index maps to: the generic step relating a stored-entry traversal to the
logical matrix-vector product. -/
theorem sum_fiber_mul (S : Finset Nat) (g : Nat → Nat) (w : Nat → ℚ)
    (p : Nat → ℚ) (N : Nat) (hb : ∀ i ∈ S, g i < N) :
    Finset.sum S (fun i => p (g i) * w i) =
      Finset.sum (Finset.range N) (fun col =>
        p col * Finset.sum (S.filter (fun i => g i = col)) w) := by
  rw [← Finset.sum_fiberwise_of_maps_to
    (fun i hi => Finset.mem_range.mpr (hb i hi)) (fun i => p (g i) * w i)]
  refine Finset.sum_congr rfl (fun col _ => ?_)
  rw [Finset.mul_sum]
  refine Finset.sum_congr rfl (fun i hi => ?_)
  rw [(Finset.mem_filter.mp hi).2]

/-- Variant of `sum_fiber_mul` with the weight on the left, matching the
CSR accumulation order `elements[i] * p[col_buffer[i]]`. -/
theorem sum_mul_fiber (S : Finset Nat) (g : Nat → Nat) (w : Nat → ℚ)
    (p : Nat → ℚ) (N : Nat) (hb : ∀ i ∈ S, g i < N) :
    Finset.sum S (fun i => w i * p (g i)) =
      Finset.sum (Finset.range N) (fun col =>
        Finset.sum (S.filter (fun i => g i = col)) w * p col) := by
  rw [Finset.sum_congr rfl (fun i _ => mul_comm (w i) (p (g i))),
    sum_fiber_mul S g w p N hb]
  exact Finset.sum_congr rfl (fun col _ => mul_comm _ _)

/-! ### Denotational row lemmas -/

/-- A CSR row computes the logical matrix-vector product of its row. -/
theorem csr_row_denote (size1 : Nat) (row_buffer col_buffer : Nat → Nat)
    (elements : Nat → ℚ) (N : Nat) (L : Nat → Nat → ℚ) (p : Nat → ℚ)
    (hrep : csrRepresents size1 row_buffer col_buffer elements N L)
    (row : Nat) (hrow : row < size1) :
    csr_row_dot elements col_buffer p (row_buffer row) (row_buffer (row + 1)) =
      matVec N L p row := by
  obtain ⟨hb, hval⟩ := hrep row hrow
  rw [csr_row_dot_eq_sum, sum_mul_fiber _ col_buffer elements p N hb]
  exact Finset.sum_congr rfl
    (fun col hcol => by rw [hval col (Finset.mem_range.mp hcol)])

/-- An ELL row computes the logical matrix-vector product of its row. -/
theorem ell_row_denote (size1 internal_size1 internal_maxnnz : Nat)
    (elements : Nat → ℚ) (coords : Nat → Nat) (N : Nat)
    (L : Nat → Nat → ℚ) (p : Nat → ℚ)
    (hrep : ellRepresents size1 internal_size1 internal_maxnnz elements
      coords N L)
    (row : Nat) (hrow : row < size1) :
    ell_row_sum internal_maxnnz internal_size1 elements coords p row =
      matVec N L p row := by
  obtain ⟨hb, hval⟩ := hrep row hrow
  rw [ell_row_sum_eq_sum, ← Finset.sum_filter,
    sum_fiber_mul _ (fun item => coords (row + item * internal_size1))
      (fun item => elements (row + item * internal_size1)) p N
      (fun item hi => hb item (Finset.mem_filter.mp hi).1
        (Finset.mem_filter.mp hi).2)]
  refine Finset.sum_congr rfl (fun col hcol => ?_)
  rw [Finset.filter_filter, hval col (Finset.mem_range.mp hcol), mul_comm]

/-- A HYB row computes the logical matrix-vector product of its row. -/
theorem hyb_row_denote (size1 internal_size1 internal_ellnnz : Nat)
    (elements : Nat → ℚ) (coords : Nat → Nat)
    (csr_row_buffer csr_col_buffer : Nat → Nat) (csr_elements : Nat → ℚ)
    (N : Nat) (L : Nat → Nat → ℚ) (p : Nat → ℚ)
    (hrep : hybRepresents size1 internal_size1 internal_ellnnz elements coords
      csr_row_buffer csr_col_buffer csr_elements N L)
    (row : Nat) (hrow : row < size1) :
    hyb_row_sum internal_ellnnz internal_size1 elements coords csr_row_buffer
        csr_col_buffer csr_elements p row =
      matVec N L p row := by
  obtain ⟨hbe, hbc, hval⟩ := hrep row hrow
  rw [hyb_row_sum_eq_sum, ← Finset.sum_filter,
    sum_fiber_mul _ (fun item => coords (row + item * internal_size1))
      (fun item => elements (row + item * internal_size1)) p N
      (fun item hi => hbe item (Finset.mem_filter.mp hi).1
        (Finset.mem_filter.mp hi).2),
    sum_fiber_mul _ csr_col_buffer csr_elements p N hbc,
    ← Finset.sum_add_distrib]
  refine Finset.sum_congr rfl (fun col hcol => ?_)
  rw [Finset.filter_filter, hval col (Finset.mem_range.mp hcol)]
  ring

/-- A sliced-ELL row computes the logical matrix-vector product of its
row. -/
theorem sell_row_denote (size1 rows_per_block : Nat)
    (columns_per_block block_start column_indices : Nat → Nat)
    (elements : Nat → ℚ) (N : Nat) (L : Nat → Nat → ℚ) (p : Nat → ℚ)
    (hrep : sellRepresents size1 rows_per_block columns_per_block block_start
      column_indices elements N L)
    (row : Nat) (hrow : row < size1) :
    sellRowValue rows_per_block columns_per_block block_start column_indices
        elements p row =
      matVec N L p row := by
  obtain ⟨hb, hval⟩ := hrep row hrow
  rw [sellRowValue_eq_sum, ← Finset.sum_filter,
    sum_fiber_mul _
      (fun ce => column_indices (block_start (row / rows_per_block) +
        ce * rows_per_block + row % rows_per_block))
      (fun ce => elements (block_start (row / rows_per_block) +
        ce * rows_per_block + row % rows_per_block)) p N
      (fun ce hi => hb ce (Finset.mem_filter.mp hi).1
        (Finset.mem_filter.mp hi).2)]
  refine Finset.sum_congr rfl (fun col hcol => ?_)
  rw [Finset.filter_filter, hval col (Finset.mem_range.mp hcol), mul_comm]

/-- A COO matrix scatter produces the logical matrix-vector product at
every row of the output range. -/
theorem coo_row_denote (nnz : Nat) (coord_buffer : Nat → Nat)
    (elements : Nat → ℚ) (M N : Nat) (L : Nat → Nat → ℚ) (p : Nat → ℚ)
    (hrep : cooRepresents nnz coord_buffer elements M N L)
    (row : Nat) (hrow : row < M) :
    Finset.sum (Finset.range nnz) (fun i =>
      if coord_buffer (2 * i) = row then
        elements i * p (coord_buffer (2 * i + 1))
      else 0) = matVec N L p row := by
  obtain ⟨hb, hval⟩ := hrep
  rw [← Finset.sum_filter,
    sum_mul_fiber _ (fun i => coord_buffer (2 * i + 1)) elements p N
      (fun i hi => (hb i (Finset.mem_range.mp
        (Finset.mem_filter.mp hi).1)).2)]
  refine Finset.sum_congr rfl (fun col hcol => ?_)
  rw [Finset.filter_filter, hval row hrow col (Finset.mem_range.mp hcol)]

/-- Canonical behaviour of the CSR kernel on a represented matrix. -/
theorem csr_canonical (M N : Nat) (row_buffer col_buffer : Nat → Nat)
    (elements : Nat → ℚ) (L : Nat → Nat → ℚ) (p Ap0 buf : Nat → ℚ)
    (buffer_len : Nat)
    (hrep : csrRepresents M row_buffer col_buffer elements N L) :
    (∀ j, (pipelined_cg_prod_csr M row_buffer col_buffer elements p Ap0
        buffer_len buf).Ap j = if j < M then matVec N L p j else Ap0 j) ∧
    (pipelined_cg_prod_csr M row_buffer col_buffer elements p Ap0
        buffer_len buf).buffer = cgBuffer M N L p buffer_len buf := by
  have h := pipelined_cg_prod_csr_spec M row_buffer col_buffer elements p Ap0
    buffer_len buf
  have hrow : ∀ row, row < M →
      csr_row_dot elements col_buffer p (row_buffer row)
        (row_buffer (row + 1)) = matVec N L p row :=
    fun row hr => csr_row_denote M row_buffer col_buffer elements N L p hrep
      row hr
  constructor
  · intro j
    rw [h.1 j]
    by_cases hj : j < M
    · rw [if_pos hj, if_pos hj, hrow j hj]
    · rw [if_neg hj, if_neg hj]
  · rw [h.2, cgBuffer]
    have h1 : Finset.sum (Finset.range M) (fun row =>
        csr_row_dot elements col_buffer p (row_buffer row)
            (row_buffer (row + 1)) *
          csr_row_dot elements col_buffer p (row_buffer row)
            (row_buffer (row + 1))) =
        Finset.sum (Finset.range M)
          (fun row => matVec N L p row * matVec N L p row) :=
      Finset.sum_congr rfl
        (fun row hr => by rw [hrow row (Finset.mem_range.mp hr)])
    have h2 : Finset.sum (Finset.range M) (fun row =>
        p row * csr_row_dot elements col_buffer p (row_buffer row)
          (row_buffer (row + 1))) =
        Finset.sum (Finset.range M)
          (fun row => p row * matVec N L p row) :=
      Finset.sum_congr rfl
        (fun row hr => by rw [hrow row (Finset.mem_range.mp hr)])
    rw [h1, h2]

/-- Canonical behaviour of the ELL kernel on a represented matrix. -/
theorem ell_canonical (M N internal_size1 internal_maxnnz : Nat)
    (elements : Nat → ℚ) (coords : Nat → Nat) (L : Nat → Nat → ℚ)
    (p Ap0 buf : Nat → ℚ) (buffer_len : Nat)
    (hrep : ellRepresents M internal_size1 internal_maxnnz elements coords N L) :
    (∀ j, (pipelined_cg_prod_ell M internal_size1 internal_maxnnz elements
        coords p Ap0 buffer_len buf).Ap j =
      if j < M then matVec N L p j else Ap0 j) ∧
    (pipelined_cg_prod_ell M internal_size1 internal_maxnnz elements coords p
        Ap0 buffer_len buf).buffer = cgBuffer M N L p buffer_len buf := by
  have h := pipelined_cg_prod_ell_spec M internal_size1 internal_maxnnz
    elements coords p Ap0 buffer_len buf
  have hrow : ∀ row, row < M →
      ell_row_sum internal_maxnnz internal_size1 elements coords p row =
        matVec N L p row :=
    fun row hr => ell_row_denote M internal_size1 internal_maxnnz elements
      coords N L p hrep row hr
  constructor
  · intro j
    rw [h.1 j]
    by_cases hj : j < M
    · rw [if_pos hj, if_pos hj, hrow j hj]
    · rw [if_neg hj, if_neg hj]
  · rw [h.2, cgBuffer]
    have h1 : Finset.sum (Finset.range M) (fun row =>
        ell_row_sum internal_maxnnz internal_size1 elements coords p row *
          ell_row_sum internal_maxnnz internal_size1 elements coords p row) =
        Finset.sum (Finset.range M)
          (fun row => matVec N L p row * matVec N L p row) :=
      Finset.sum_congr rfl
        (fun row hr => by rw [hrow row (Finset.mem_range.mp hr)])
    have h2 : Finset.sum (Finset.range M) (fun row =>
        p row *
          ell_row_sum internal_maxnnz internal_size1 elements coords p row) =
        Finset.sum (Finset.range M)
          (fun row => p row * matVec N L p row) :=
      Finset.sum_congr rfl
        (fun row hr => by rw [hrow row (Finset.mem_range.mp hr)])
    rw [h1, h2]

/-- Canonical behaviour of the HYB kernel on a represented matrix. -/
theorem hyb_canonical (M N internal_size1 internal_ellnnz : Nat)
    (elements : Nat → ℚ) (coords : Nat → Nat)
    (csr_row_buffer csr_col_buffer : Nat → Nat) (csr_elements : Nat → ℚ)
    (L : Nat → Nat → ℚ) (p Ap0 buf : Nat → ℚ) (buffer_len : Nat)
    (hrep : hybRepresents M internal_size1 internal_ellnnz elements coords
      csr_row_buffer csr_col_buffer csr_elements N L) :
    (∀ j, (pipelined_cg_prod_hyb M internal_size1 internal_ellnnz elements
        coords csr_row_buffer csr_col_buffer csr_elements p Ap0
        buffer_len buf).Ap j = if j < M then matVec N L p j else Ap0 j) ∧
    (pipelined_cg_prod_hyb M internal_size1 internal_ellnnz elements coords
        csr_row_buffer csr_col_buffer csr_elements p Ap0
        buffer_len buf).buffer = cgBuffer M N L p buffer_len buf := by
  have h := pipelined_cg_prod_hyb_spec M internal_size1 internal_ellnnz
    elements coords csr_row_buffer csr_col_buffer csr_elements p Ap0
    buffer_len buf
  have hrow : ∀ row, row < M →
      hyb_row_sum internal_ellnnz internal_size1 elements coords
        csr_row_buffer csr_col_buffer csr_elements p row = matVec N L p row :=
    fun row hr => hyb_row_denote M internal_size1 internal_ellnnz elements
      coords csr_row_buffer csr_col_buffer csr_elements N L p hrep row hr
  constructor
  · intro j
    rw [h.1 j]
    by_cases hj : j < M
    · rw [if_pos hj, if_pos hj, hrow j hj]
    · rw [if_neg hj, if_neg hj]
  · rw [h.2, cgBuffer]
    have h1 : Finset.sum (Finset.range M) (fun row =>
        hyb_row_sum internal_ellnnz internal_size1 elements coords
            csr_row_buffer csr_col_buffer csr_elements p row *
          hyb_row_sum internal_ellnnz internal_size1 elements coords
            csr_row_buffer csr_col_buffer csr_elements p row) =
        Finset.sum (Finset.range M)
          (fun row => matVec N L p row * matVec N L p row) :=
      Finset.sum_congr rfl
        (fun row hr => by rw [hrow row (Finset.mem_range.mp hr)])
    have h2 : Finset.sum (Finset.range M) (fun row =>
        p row * hyb_row_sum internal_ellnnz internal_size1 elements coords
          csr_row_buffer csr_col_buffer csr_elements p row) =
        Finset.sum (Finset.range M)
          (fun row => p row * matVec N L p row) :=
      Finset.sum_congr rfl
        (fun row hr => by rw [hrow row (Finset.mem_range.mp hr)])
    rw [h1, h2]

/-- Canonical behaviour of the sliced-ELL kernel on a represented matrix. -/
theorem sell_canonical (M N rows_per_block : Nat) (hrpb : 0 < rows_per_block)
    (columns_per_block column_indices block_start : Nat → Nat)
    (elements : Nat → ℚ) (L : Nat → Nat → ℚ) (p Ap0 buf : Nat → ℚ)
    (buffer_len : Nat)
    (hrep : sellRepresents M rows_per_block columns_per_block block_start
      column_indices elements N L) :
    (∀ j, (pipelined_cg_prod_sliced_ell M rows_per_block columns_per_block
        column_indices block_start elements p M Ap0 buffer_len buf).Ap j =
      if j < M then matVec N L p j else Ap0 j) ∧
    (pipelined_cg_prod_sliced_ell M rows_per_block columns_per_block
        column_indices block_start elements p M Ap0 buffer_len buf).buffer =
      cgBuffer M N L p buffer_len buf := by
  have h := pipelined_cg_prod_sliced_ell_spec M rows_per_block hrpb
    columns_per_block column_indices block_start elements p Ap0 buffer_len buf
  have hrow : ∀ row, row < M →
      sellRowValue rows_per_block columns_per_block block_start column_indices
        elements p row = matVec N L p row :=
    fun row hr => sell_row_denote M rows_per_block columns_per_block
      block_start column_indices elements N L p hrep row hr
  constructor
  · intro j
    rw [h.1 j]
    by_cases hj : j < M
    · rw [if_pos hj, if_pos hj, hrow j hj]
    · rw [if_neg hj, if_neg hj]
  · rw [h.2, cgBuffer]
    have h1 : Finset.sum (Finset.range M) (fun row =>
        sellRowValue rows_per_block columns_per_block block_start
            column_indices elements p row *
          sellRowValue rows_per_block columns_per_block block_start
            column_indices elements p row) =
        Finset.sum (Finset.range M)
          (fun row => matVec N L p row * matVec N L p row) :=
      Finset.sum_congr rfl
        (fun row hr => by rw [hrow row (Finset.mem_range.mp hr)])
    have h2 : Finset.sum (Finset.range M) (fun row =>
        p row * sellRowValue rows_per_block columns_per_block block_start
          column_indices elements p row) =
        Finset.sum (Finset.range M)
          (fun row => p row * matVec N L p row) :=
      Finset.sum_congr rfl
        (fun row hr => by rw [hrow row (Finset.mem_range.mp hr)])
    rw [h1, h2]

/-- Canonical behaviour of the COO kernel on a represented matrix. -/
theorem coo_canonical (M N nnz : Nat) (coord_buffer : Nat → Nat)
    (elements : Nat → ℚ) (L : Nat → Nat → ℚ) (p Ap0 buf : Nat → ℚ)
    (buffer_len : Nat)
    (hrep : cooRepresents nnz coord_buffer elements M N L) :
    (∀ j, (pipelined_cg_prod_coo nnz coord_buffer elements p M Ap0
        buffer_len buf).Ap j = if j < M then matVec N L p j else Ap0 j) ∧
    (pipelined_cg_prod_coo nnz coord_buffer elements p M Ap0
        buffer_len buf).buffer = cgBuffer M N L p buffer_len buf := by
  have h := pipelined_cg_prod_coo_spec nnz coord_buffer elements p M Ap0
    buffer_len buf
  have hAp : ∀ j, (pipelined_cg_prod_coo nnz coord_buffer elements p M Ap0
      buffer_len buf).Ap j = if j < M then matVec N L p j else Ap0 j := by
    intro j
    rw [h.1 j]
    by_cases hj : j < M
    · rw [if_pos hj, if_pos hj, zero_add,
        coo_row_denote nnz coord_buffer elements M N L p hrep j hj]
    · rw [if_neg hj, if_neg hj]
      have hz : Finset.sum (Finset.range nnz) (fun i =>
          if coord_buffer (2 * i) = j then
            elements i * p (coord_buffer (2 * i + 1))
          else 0) = 0 := by
        refine Finset.sum_eq_zero (fun i hi => ?_)
        have hlt := (hrep.1 i (Finset.mem_range.mp hi)).1
        exact if_neg (by omega)
      rw [hz, add_zero]
  refine ⟨hAp, ?_⟩
  rw [h.2, cgBuffer]
  have h1 : Finset.sum (Finset.range M) (fun i =>
      (pipelined_cg_prod_coo nnz coord_buffer elements p M Ap0
          buffer_len buf).Ap i *
        (pipelined_cg_prod_coo nnz coord_buffer elements p M Ap0
          buffer_len buf).Ap i) =
      Finset.sum (Finset.range M)
        (fun row => matVec N L p row * matVec N L p row) :=
    Finset.sum_congr rfl (fun i hi => by
      rw [hAp i, if_pos (Finset.mem_range.mp hi)])
  have h2 : Finset.sum (Finset.range M) (fun i =>
      (pipelined_cg_prod_coo nnz coord_buffer elements p M Ap0
          buffer_len buf).Ap i * p i) =
      Finset.sum (Finset.range M) (fun row => p row * matVec N L p row) :=
    Finset.sum_congr rfl (fun i hi => by
      rw [hAp i, if_pos (Finset.mem_range.mp hi), mul_comm])
  rw [h1, h2]

/-- The ELL row sum depends on the column index of a slot only when the
slot's stored value is nonzero. -/
theorem ell_row_sum_congr (internal_maxnnz internal_size1 : Nat)
    (elements : Nat → ℚ) (coords1 coords2 : Nat → Nat) (p : Nat → ℚ)
    (row : Nat)
    (h : ∀ item, item < internal_maxnnz →
      elements (row + item * internal_size1) ≠ 0 →
      coords1 (row + item * internal_size1) =
        coords2 (row + item * internal_size1)) :
    ell_row_sum internal_maxnnz internal_size1 elements coords1 p row =
      ell_row_sum internal_maxnnz internal_size1 elements coords2 p row := by
  rw [ell_row_sum_eq_sum, ell_row_sum_eq_sum]
  refine Finset.sum_congr rfl (fun item hi => ?_)
  by_cases hz : elements (row + item * internal_size1) = 0
  · rw [if_neg (not_not_intro hz), if_neg (not_not_intro hz)]
  · rw [if_pos hz, if_pos hz, h item (Finset.mem_range.mp hi) hz]

/-- A row whose ELL slots are all literally zero sums to zero. -/
theorem ell_row_sum_zero (internal_maxnnz internal_size1 : Nat)
    (elements : Nat → ℚ) (coords : Nat → Nat) (p : Nat → ℚ) (row : Nat)
    (h : ∀ item, item < internal_maxnnz →
      elements (row + item * internal_size1) = 0) :
    ell_row_sum internal_maxnnz internal_size1 elements coords p row = 0 := by
  rw [ell_row_sum_eq_sum]
  exact Finset.sum_eq_zero
    (fun item hi => if_neg (not_not_intro (h item (Finset.mem_range.mp hi))))

/-- The HYB row sum depends on the column index of an ELL slot only when
the slot's stored value is nonzero. -/
theorem hyb_row_sum_congr (internal_ellnnz internal_size1 : Nat)
    (elements : Nat → ℚ) (coords1 coords2 : Nat → Nat)
    (csr_row_buffer csr_col_buffer : Nat → Nat) (csr_elements : Nat → ℚ)
    (p : Nat → ℚ) (row : Nat)
    (h : ∀ item, item < internal_ellnnz →
      elements (row + item * internal_size1) ≠ 0 →
      coords1 (row + item * internal_size1) =
        coords2 (row + item * internal_size1)) :
    hyb_row_sum internal_ellnnz internal_size1 elements coords1 csr_row_buffer
        csr_col_buffer csr_elements p row =
      hyb_row_sum internal_ellnnz internal_size1 elements coords2
        csr_row_buffer csr_col_buffer csr_elements p row := by
  rw [hyb_row_sum_eq_sum, hyb_row_sum_eq_sum]
  congr 1
  refine Finset.sum_congr rfl (fun item hi => ?_)
  by_cases hz : elements (row + item * internal_size1) = 0
  · rw [if_neg (not_not_intro hz), if_neg (not_not_intro hz)]
  · rw [if_pos hz, if_pos hz, h item (Finset.mem_range.mp hi) hz]

/-- A row whose ELL slots and overflow values are all literally zero sums
to zero in the HYB kernel. -/
theorem hyb_row_sum_zero (internal_ellnnz internal_size1 : Nat)
    (elements : Nat → ℚ) (coords : Nat → Nat)
    (csr_row_buffer csr_col_buffer : Nat → Nat) (csr_elements : Nat → ℚ)
    (p : Nat → ℚ) (row : Nat)
    (he : ∀ item, item < internal_ellnnz →
      elements (row + item * internal_size1) = 0)
    (hc : ∀ i ∈ Finset.Ico (csr_row_buffer row) (csr_row_buffer (row + 1)),
      csr_elements i = 0) :
    hyb_row_sum internal_ellnnz internal_size1 elements coords csr_row_buffer
      csr_col_buffer csr_elements p row = 0 := by
  rw [hyb_row_sum_eq_sum]
  rw [Finset.sum_eq_zero (fun item hi =>
    if_neg (not_not_intro (he item (Finset.mem_range.mp hi))))]
  rw [Finset.sum_eq_zero (fun i hi => by rw [hc i hi, mul_zero]), add_zero]

/-! ### Claim theorems -/

/-- C1: for every call to the vector-update kernel with vectors of common
size `N` and every `i < N`, the kernel computes
`result[i] += alpha*old_p[i]`, `new_r = old_r[i] - alpha*Ap[i]`,
`new_p = new_r + beta*old_p[i]` (old `p[i]`), stores them, and after the
full pass writes the sum of the squared new residuals to slot `0` of the
reduction buffer; in particular on `result=[1,2]`, `p=[1,1]`, `r=[2,2]`,
`Ap=[0,0]`, `alpha=1`, `beta=0` it produces `result=[2,3]`, `r=[2,2]`,
`p=[2,2]` and reduction value `8`. -/
theorem C1_vector_update_recurrence :
    (∀ (N : Nat) (result0 : Nat → ℚ) (alpha : ℚ) (p0 r0 Ap : Nat → ℚ)
        (beta : ℚ) (buf : Nat → ℚ),
      (∀ i, i < N →
        (pipelined_cg_vector_update N result0 alpha p0 r0 Ap beta buf).result i =
          result0 i + alpha * p0 i ∧
        (pipelined_cg_vector_update N result0 alpha p0 r0 Ap beta buf).r i =
          r0 i - alpha * Ap i ∧
        (pipelined_cg_vector_update N result0 alpha p0 r0 Ap beta buf).p i =
          (r0 i - alpha * Ap i) + beta * p0 i) ∧
      (pipelined_cg_vector_update N result0 alpha p0 r0 Ap beta buf).buffer 0 =
        Finset.sum (Finset.range N)
          (fun i => (r0 i - alpha * Ap i) * (r0 i - alpha * Ap i))) ∧
    ((pipelined_cg_vector_update 2 exResult 1 exOnes exTwos exZero 0
        exZero).result 0 = 2 ∧
      (pipelined_cg_vector_update 2 exResult 1 exOnes exTwos exZero 0
        exZero).result 1 = 3 ∧
      (pipelined_cg_vector_update 2 exResult 1 exOnes exTwos exZero 0
        exZero).r 0 = 2 ∧
      (pipelined_cg_vector_update 2 exResult 1 exOnes exTwos exZero 0
        exZero).r 1 = 2 ∧
      (pipelined_cg_vector_update 2 exResult 1 exOnes exTwos exZero 0
        exZero).p 0 = 2 ∧
      (pipelined_cg_vector_update 2 exResult 1 exOnes exTwos exZero 0
        exZero).p 1 = 2 ∧
      (pipelined_cg_vector_update 2 exResult 1 exOnes exTwos exZero 0
        exZero).buffer 0 = 8) := by
  constructor
  · intro N result0 alpha p0 r0 Ap beta buf
    have h := pipelined_cg_vector_update_spec N result0 alpha p0 r0 Ap beta buf
    constructor
    · intro i hi
      exact ⟨by rw [h.1 i, if_pos hi], by rw [h.2.1 i, if_pos hi],
        by rw [h.2.2.1 i, if_pos hi]⟩
    · rw [h.2.2.2]
      simp [upd]
  · norm_num [pipelined_cg_vector_update, cg_vector_update_step, upd,
      List.range_succ, exResult, exOnes, exTwos, exZero]

/-- Witness for C1: the general statement applied to the concrete
determinism test at index `0`. -/
theorem C1_vector_update_recurrence_witness :
    (0 : Nat) < 2 ∧
    (pipelined_cg_vector_update 2 exResult 1 exOnes exTwos exZero 0
      exZero).result 0 = exResult 0 + 1 * exOnes 0 :=
  ⟨by norm_num,
    ((C1_vector_update_recurrence.1 2 exResult 1 exOnes exTwos exZero 0
      exZero).1 0 (by norm_num)).1⟩

/-- C10: the vector-update kernel's loop bound comes from the size of
`result` alone; it writes only the first `size(result)` entries of the
three vectors (and slot `0` of the buffer), and its outputs depend on
`p`, `r`, `Ap` only through their first `size(result)` entries. -/
theorem C10_loop_bound_from_result (result : List ℚ) (alpha : ℚ)
    (p0 r0 Ap0 p1 r1 Ap1 : Nat → ℚ) (beta : ℚ) (buf : Nat → ℚ)
    (hp : ∀ i, i < result.length → p0 i = p1 i)
    (hr : ∀ i, i < result.length → r0 i = r1 i)
    (hAp : ∀ i, i < result.length → Ap0 i = Ap1 i) :
    (∀ j, result.length ≤ j →
      (pipelined_cg_vector_update_of_list result alpha p0 r0 Ap0 beta
          buf).result j = result.getD j 0 ∧
      (pipelined_cg_vector_update_of_list result alpha p0 r0 Ap0 beta
          buf).p j = p0 j ∧
      (pipelined_cg_vector_update_of_list result alpha p0 r0 Ap0 beta
          buf).r j = r0 j) ∧
    (∀ j, j ≠ 0 →
      (pipelined_cg_vector_update_of_list result alpha p0 r0 Ap0 beta
        buf).buffer j = buf j) ∧
    (∀ j, (pipelined_cg_vector_update_of_list result alpha p0 r0 Ap0 beta
        buf).result j =
      (pipelined_cg_vector_update_of_list result alpha p1 r1 Ap1 beta
        buf).result j) ∧
    (∀ j, j < result.length →
      (pipelined_cg_vector_update_of_list result alpha p0 r0 Ap0 beta
          buf).p j =
        (pipelined_cg_vector_update_of_list result alpha p1 r1 Ap1 beta
          buf).p j ∧
      (pipelined_cg_vector_update_of_list result alpha p0 r0 Ap0 beta
          buf).r j =
        (pipelined_cg_vector_update_of_list result alpha p1 r1 Ap1 beta
          buf).r j) ∧
    (∀ j, (pipelined_cg_vector_update_of_list result alpha p0 r0 Ap0 beta
        buf).buffer j =
      (pipelined_cg_vector_update_of_list result alpha p1 r1 Ap1 beta
        buf).buffer j) := by
  simp only [pipelined_cg_vector_update_of_list]
  have h0 := pipelined_cg_vector_update_spec result.length
    (fun i => result.getD i 0) alpha p0 r0 Ap0 beta buf
  have h1 := pipelined_cg_vector_update_spec result.length
    (fun i => result.getD i 0) alpha p1 r1 Ap1 beta buf
  have hsum : Finset.sum (Finset.range result.length)
      (fun i => (r0 i - alpha * Ap0 i) * (r0 i - alpha * Ap0 i)) =
      Finset.sum (Finset.range result.length)
        (fun i => (r1 i - alpha * Ap1 i) * (r1 i - alpha * Ap1 i)) :=
    Finset.sum_congr rfl (fun i hi => by
      rw [hr i (Finset.mem_range.mp hi), hAp i (Finset.mem_range.mp hi)])
  refine ⟨fun j hj => ?_, fun j hj => ?_, fun j => ?_, fun j hj => ?_,
    fun j => ?_⟩
  · have hn : ¬ j < result.length := by omega
    exact ⟨by rw [h0.1 j, if_neg hn], by rw [h0.2.2.1 j, if_neg hn],
      by rw [h0.2.1 j, if_neg hn]⟩
  · rw [h0.2.2.2]
    simp [upd, hj]
  · rw [h0.1 j, h1.1 j]
    by_cases hc : j < result.length
    · rw [if_pos hc, if_pos hc, hp j hc]
    · rw [if_neg hc, if_neg hc]
  · exact ⟨by rw [h0.2.2.1 j, h1.2.2.1 j, if_pos hj, if_pos hj, hp j hj,
        hr j hj, hAp j hj],
      by rw [h0.2.1 j, h1.2.1 j, if_pos hj, if_pos hj, hr j hj, hAp j hj]⟩
  · rw [h0.2.2.2, h1.2.2.2, hsum]

/-- Witness for C10: the read/write framing applied to a concrete pair of
inputs agreeing on the first two entries. -/
theorem C10_loop_bound_from_result_witness :
    (∀ i, i < ([(1 : ℚ), 2] : List ℚ).length → exOnes i = exOnes i) ∧
    (pipelined_cg_vector_update_of_list [(1 : ℚ), 2] 1 exOnes exTwos exZero 0
        exSentinel).buffer 5 = exSentinel 5 :=
  ⟨fun _ _ => rfl,
    (C10_loop_bound_from_result [(1 : ℚ), 2] 1 exOnes exTwos exZero exOnes
      exTwos exZero 0 exSentinel (fun _ _ => rfl) (fun _ _ => rfl)
      (fun _ _ => rfl)).2.1 5 (by norm_num)⟩

/-- C8: on a reduction buffer of length `3*B` with `B ≥ 1`, the
vector-update kernel writes only slot `0` (offsets `B`, `2B` keep their
sentinel values), and each of the five fused SpMV kernels writes only
slots `B` and `2B` (offset `0` keeps its sentinel value). -/
theorem C8_buffer_slot_separation :
    (∀ (size : Nat) (result0 : Nat → ℚ) (alpha : ℚ) (p0 r0 Ap : Nat → ℚ)
        (beta : ℚ) (buf : Nat → ℚ) (j : Nat), j ≠ 0 →
      (pipelined_cg_vector_update size result0 alpha p0 r0 Ap beta
        buf).buffer j = buf j) ∧
    (∀ (size1 : Nat) (rb cb : Nat → Nat) (el p Ap : Nat → ℚ)
        (blen : Nat) (buf : Nat → ℚ), 3 ≤ blen →
      (pipelined_cg_prod_csr size1 rb cb el p Ap blen buf).buffer 0 = buf 0 ∧
      (∀ j, j ≠ blen / 3 → j ≠ 2 * (blen / 3) →
        (pipelined_cg_prod_csr size1 rb cb el p Ap blen buf).buffer j =
          buf j)) ∧
    (∀ (nnz : Nat) (coord : Nat → Nat) (el p : Nat → ℚ) (ap_size : Nat)
        (Ap : Nat → ℚ) (blen : Nat) (buf : Nat → ℚ), 3 ≤ blen →
      (pipelined_cg_prod_coo nnz coord el p ap_size Ap blen buf).buffer 0 =
        buf 0 ∧
      (∀ j, j ≠ blen / 3 → j ≠ 2 * (blen / 3) →
        (pipelined_cg_prod_coo nnz coord el p ap_size Ap blen buf).buffer j =
          buf j)) ∧
    (∀ (size1 isz1 maxnnz : Nat) (el : Nat → ℚ) (coords : Nat → Nat)
        (p Ap : Nat → ℚ) (blen : Nat) (buf : Nat → ℚ), 3 ≤ blen →
      (pipelined_cg_prod_ell size1 isz1 maxnnz el coords p Ap blen
        buf).buffer 0 = buf 0 ∧
      (∀ j, j ≠ blen / 3 → j ≠ 2 * (blen / 3) →
        (pipelined_cg_prod_ell size1 isz1 maxnnz el coords p Ap blen
          buf).buffer j = buf j)) ∧
    (∀ (size1 rpb : Nat) (cpb ci bs : Nat → Nat) (el p : Nat → ℚ)
        (ap_size : Nat) (Ap : Nat → ℚ) (blen : Nat) (buf : Nat → ℚ),
      3 ≤ blen →
      (pipelined_cg_prod_sliced_ell size1 rpb cpb ci bs el p ap_size Ap blen
        buf).buffer 0 = buf 0 ∧
      (∀ j, j ≠ blen / 3 → j ≠ 2 * (blen / 3) →
        (pipelined_cg_prod_sliced_ell size1 rpb cpb ci bs el p ap_size Ap
          blen buf).buffer j = buf j)) ∧
    (∀ (size1 isz1 ellnnz : Nat) (el : Nat → ℚ) (coords : Nat → Nat)
        (crb ccb : Nat → Nat) (cel p Ap : Nat → ℚ) (blen : Nat)
        (buf : Nat → ℚ), 3 ≤ blen →
      (pipelined_cg_prod_hyb size1 isz1 ellnnz el coords crb ccb cel p Ap
        blen buf).buffer 0 = buf 0 ∧
      (∀ j, j ≠ blen / 3 → j ≠ 2 * (blen / 3) →
        (pipelined_cg_prod_hyb size1 isz1 ellnnz el coords crb ccb cel p Ap
          blen buf).buffer j = buf j)) := by
  refine ⟨?_, ?_, ?_, ?_, ?_, ?_⟩
  · intro size result0 alpha p0 r0 Ap beta buf j hj
    simp only [pipelined_cg_vector_update]
    simp [upd, hj]
  all_goals
    first
    | (intro size1 rb cb el p Ap blen buf hblen
       have hB : 1 ≤ blen / 3 := (Nat.le_div_iff_mul_le (by norm_num)).mpr
         (by omega)
       have hframe : ∀ j, j ≠ blen / 3 → j ≠ 2 * (blen / 3) →
           (pipelined_cg_prod_csr size1 rb cb el p Ap blen buf).buffer j =
             buf j := by
         intro j hj1 hj2
         simp only [pipelined_cg_prod_csr]
         simp [upd, hj1, hj2]
       exact ⟨hframe 0 (by omega) (by omega), hframe⟩)
    | skip
  · intro nnz coord el p ap_size Ap blen buf hblen
    have hB : 1 ≤ blen / 3 := (Nat.le_div_iff_mul_le (by norm_num)).mpr
      (by omega)
    have hframe : ∀ j, j ≠ blen / 3 → j ≠ 2 * (blen / 3) →
        (pipelined_cg_prod_coo nnz coord el p ap_size Ap blen buf).buffer j =
          buf j := by
      intro j hj1 hj2
      simp only [pipelined_cg_prod_coo]
      simp [upd, hj1, hj2]
    exact ⟨hframe 0 (by omega) (by omega), hframe⟩
  · intro size1 isz1 maxnnz el coords p Ap blen buf hblen
    have hB : 1 ≤ blen / 3 := (Nat.le_div_iff_mul_le (by norm_num)).mpr
      (by omega)
    have hframe : ∀ j, j ≠ blen / 3 → j ≠ 2 * (blen / 3) →
        (pipelined_cg_prod_ell size1 isz1 maxnnz el coords p Ap blen
          buf).buffer j = buf j := by
      intro j hj1 hj2
      simp only [pipelined_cg_prod_ell]
      simp [upd, hj1, hj2]
    exact ⟨hframe 0 (by omega) (by omega), hframe⟩
  · intro size1 rpb cpb ci bs el p ap_size Ap blen buf hblen
    have hB : 1 ≤ blen / 3 := (Nat.le_div_iff_mul_le (by norm_num)).mpr
      (by omega)
    have hframe : ∀ j, j ≠ blen / 3 → j ≠ 2 * (blen / 3) →
        (pipelined_cg_prod_sliced_ell size1 rpb cpb ci bs el p ap_size Ap
          blen buf).buffer j = buf j := by
      intro j hj1 hj2
      simp only [pipelined_cg_prod_sliced_ell]
      simp [upd, hj1, hj2]
    exact ⟨hframe 0 (by omega) (by omega), hframe⟩
  · intro size1 isz1 ellnnz el coords crb ccb cel p Ap blen buf hblen
    have hB : 1 ≤ blen / 3 := (Nat.le_div_iff_mul_le (by norm_num)).mpr
      (by omega)
    have hframe : ∀ j, j ≠ blen / 3 → j ≠ 2 * (blen / 3) →
        (pipelined_cg_prod_hyb size1 isz1 ellnnz el coords crb ccb cel p Ap
          blen buf).buffer j = buf j := by
      intro j hj1 hj2
      simp only [pipelined_cg_prod_hyb]
      simp [upd, hj1, hj2]
    exact ⟨hframe 0 (by omega) (by omega), hframe⟩

/-- Witness for C8: on a length-3 sentinel buffer, the CSR kernel leaves
slot `0` untouched and the vector-update kernel leaves slot `1`
untouched. -/
theorem C8_buffer_slot_separation_witness :
    (3 : Nat) ≤ 3 ∧ (1 : Nat) ≠ 0 ∧
    (pipelined_cg_prod_csr 1 exRb exIdx0 exEl5 exP3 exZero 3
      exSentinel).buffer 0 = exSentinel 0 ∧
    (pipelined_cg_vector_update 2 exResult 1 exOnes exTwos exZero 0
      exSentinel).buffer 1 = exSentinel 1 :=
  ⟨le_refl 3, one_ne_zero,
    (C8_buffer_slot_separation.2.1 1 exRb exIdx0 exEl5 exP3 exZero 3
      exSentinel (le_refl 3)).1,
    C8_buffer_slot_separation.1 2 exResult 1 exOnes exTwos exZero 0
      exSentinel 1 one_ne_zero⟩

/-- C2: every fused SpMV kernel writes `S1 = Σ_row Ap[row]²` at buffer
offset `B` and `S2 = Σ_row p[row]*Ap[row]` at offset `2B`, where
`B = buffer_len / 3` is the per-vector stride (for the sliced-ELL kernel
with a positive block size and output length equal to the row count); in
particular on the `1 × 1` matrix with value `5` and `p = [3]` the CSR
kernel produces `Ap = [15]`, `S1 = 225`, `S2 = 45`. -/
theorem C2_reduction_sums :
    (∀ (size1 : Nat) (rb cb : Nat → Nat) (el p Ap : Nat → ℚ)
        (blen : Nat) (buf : Nat → ℚ), 1 ≤ blen / 3 →
      (pipelined_cg_prod_csr size1 rb cb el p Ap blen buf).buffer (blen / 3) =
        Finset.sum (Finset.range size1) (fun row =>
          (pipelined_cg_prod_csr size1 rb cb el p Ap blen buf).Ap row *
            (pipelined_cg_prod_csr size1 rb cb el p Ap blen buf).Ap row) ∧
      (pipelined_cg_prod_csr size1 rb cb el p Ap blen buf).buffer
          (2 * (blen / 3)) =
        Finset.sum (Finset.range size1) (fun row =>
          p row * (pipelined_cg_prod_csr size1 rb cb el p Ap blen
            buf).Ap row)) ∧
    (∀ (nnz : Nat) (coord : Nat → Nat) (el p : Nat → ℚ) (ap_size : Nat)
        (Ap : Nat → ℚ) (blen : Nat) (buf : Nat → ℚ), 1 ≤ blen / 3 →
      (pipelined_cg_prod_coo nnz coord el p ap_size Ap blen buf).buffer
          (blen / 3) =
        Finset.sum (Finset.range ap_size) (fun row =>
          (pipelined_cg_prod_coo nnz coord el p ap_size Ap blen buf).Ap row *
            (pipelined_cg_prod_coo nnz coord el p ap_size Ap blen
              buf).Ap row) ∧
      (pipelined_cg_prod_coo nnz coord el p ap_size Ap blen buf).buffer
          (2 * (blen / 3)) =
        Finset.sum (Finset.range ap_size) (fun row =>
          p row * (pipelined_cg_prod_coo nnz coord el p ap_size Ap blen
            buf).Ap row)) ∧
    (∀ (size1 isz1 maxnnz : Nat) (el : Nat → ℚ) (coords : Nat → Nat)
        (p Ap : Nat → ℚ) (blen : Nat) (buf : Nat → ℚ), 1 ≤ blen / 3 →
      (pipelined_cg_prod_ell size1 isz1 maxnnz el coords p Ap blen
          buf).buffer (blen / 3) =
        Finset.sum (Finset.range size1) (fun row =>
          (pipelined_cg_prod_ell size1 isz1 maxnnz el coords p Ap blen
              buf).Ap row *
            (pipelined_cg_prod_ell size1 isz1 maxnnz el coords p Ap blen
              buf).Ap row) ∧
      (pipelined_cg_prod_ell size1 isz1 maxnnz el coords p Ap blen
          buf).buffer (2 * (blen / 3)) =
        Finset.sum (Finset.range size1) (fun row =>
          p row * (pipelined_cg_prod_ell size1 isz1 maxnnz el coords p Ap
            blen buf).Ap row)) ∧
    (∀ (size1 rpb : Nat) (cpb ci bs : Nat → Nat) (el p Ap : Nat → ℚ)
        (blen : Nat) (buf : Nat → ℚ), 1 ≤ blen / 3 → 0 < rpb →
      (pipelined_cg_prod_sliced_ell size1 rpb cpb ci bs el p size1 Ap blen
          buf).buffer (blen / 3) =
        Finset.sum (Finset.range size1) (fun row =>
          (pipelined_cg_prod_sliced_ell size1 rpb cpb ci bs el p size1 Ap
              blen buf).Ap row *
            (pipelined_cg_prod_sliced_ell size1 rpb cpb ci bs el p size1 Ap
              blen buf).Ap row) ∧
      (pipelined_cg_prod_sliced_ell size1 rpb cpb ci bs el p size1 Ap blen
          buf).buffer (2 * (blen / 3)) =
        Finset.sum (Finset.range size1) (fun row =>
          p row * (pipelined_cg_prod_sliced_ell size1 rpb cpb ci bs el p
            size1 Ap blen buf).Ap row)) ∧
    (∀ (size1 isz1 ellnnz : Nat) (el : Nat → ℚ) (coords : Nat → Nat)
        (crb ccb : Nat → Nat) (cel p Ap : Nat → ℚ) (blen : Nat)
        (buf : Nat → ℚ), 1 ≤ blen / 3 →
      (pipelined_cg_prod_hyb size1 isz1 ellnnz el coords crb ccb cel p Ap
          blen buf).buffer (blen / 3) =
        Finset.sum (Finset.range size1) (fun row =>
          (pipelined_cg_prod_hyb size1 isz1 ellnnz el coords crb ccb cel p
              Ap blen buf).Ap row *
            (pipelined_cg_prod_hyb size1 isz1 ellnnz el coords crb ccb cel p
              Ap blen buf).Ap row) ∧
      (pipelined_cg_prod_hyb size1 isz1 ellnnz el coords crb ccb cel p Ap
          blen buf).buffer (2 * (blen / 3)) =
        Finset.sum (Finset.range size1) (fun row =>
          p row * (pipelined_cg_prod_hyb size1 isz1 ellnnz el coords crb ccb
            cel p Ap blen buf).Ap row)) ∧
    ((pipelined_cg_prod_csr 1 exRb exIdx0 exEl5 exP3 exZero 3 exZero).Ap 0 =
        15 ∧
      (pipelined_cg_prod_csr 1 exRb exIdx0 exEl5 exP3 exZero 3
        exZero).buffer 1 = 225 ∧
      (pipelined_cg_prod_csr 1 exRb exIdx0 exEl5 exP3 exZero 3
        exZero).buffer 2 = 45) := by
  refine ⟨?_, ?_, ?_, ?_, ?_, ?_⟩
  · intro size1 rb cb el p Ap blen buf hB
    have h := pipelined_cg_prod_csr_spec size1 rb cb el p Ap blen buf
    have hne : (blen / 3 : Nat) ≠ 2 * (blen / 3) := by omega
    have hsum1 : Finset.sum (Finset.range size1) (fun row =>
        (pipelined_cg_prod_csr size1 rb cb el p Ap blen buf).Ap row *
          (pipelined_cg_prod_csr size1 rb cb el p Ap blen buf).Ap row) =
        Finset.sum (Finset.range size1) (fun row =>
          csr_row_dot el cb p (rb row) (rb (row + 1)) *
            csr_row_dot el cb p (rb row) (rb (row + 1))) :=
      Finset.sum_congr rfl (fun row hr => by
        rw [h.1 row, if_pos (Finset.mem_range.mp hr)])
    have hsum2 : Finset.sum (Finset.range size1) (fun row =>
        p row * (pipelined_cg_prod_csr size1 rb cb el p Ap blen
          buf).Ap row) =
        Finset.sum (Finset.range size1) (fun row =>
          p row * csr_row_dot el cb p (rb row) (rb (row + 1))) :=
      Finset.sum_congr rfl (fun row hr => by
        rw [h.1 row, if_pos (Finset.mem_range.mp hr)])
    rw [h.2, hsum1, hsum2]
    constructor
    · simp [upd, hne]
    · simp [upd]
  · intro nnz coord el p ap_size Ap blen buf hB
    have h := pipelined_cg_prod_coo_spec nnz coord el p ap_size Ap blen buf
    have hne : (blen / 3 : Nat) ≠ 2 * (blen / 3) := by omega
    have hsum2 : Finset.sum (Finset.range ap_size) (fun row =>
        (pipelined_cg_prod_coo nnz coord el p ap_size Ap blen buf).Ap row *
          p row) =
        Finset.sum (Finset.range ap_size) (fun row =>
          p row * (pipelined_cg_prod_coo nnz coord el p ap_size Ap blen
            buf).Ap row) :=
      Finset.sum_congr rfl (fun row _ => mul_comm _ _)
    rw [h.2]
    constructor
    · simp [upd, hne]
    · rw [← hsum2]
      simp [upd]
  · intro size1 isz1 maxnnz el coords p Ap blen buf hB
    have h := pipelined_cg_prod_ell_spec size1 isz1 maxnnz el coords p Ap
      blen buf
    have hne : (blen / 3 : Nat) ≠ 2 * (blen / 3) := by omega
    have hsum1 : Finset.sum (Finset.range size1) (fun row =>
        (pipelined_cg_prod_ell size1 isz1 maxnnz el coords p Ap blen
            buf).Ap row *
          (pipelined_cg_prod_ell size1 isz1 maxnnz el coords p Ap blen
            buf).Ap row) =
        Finset.sum (Finset.range size1) (fun row =>
          ell_row_sum maxnnz isz1 el coords p row *
            ell_row_sum maxnnz isz1 el coords p row) :=
      Finset.sum_congr rfl (fun row hr => by
        rw [h.1 row, if_pos (Finset.mem_range.mp hr)])
    have hsum2 : Finset.sum (Finset.range size1) (fun row =>
        p row * (pipelined_cg_prod_ell size1 isz1 maxnnz el coords p Ap blen
          buf).Ap row) =
        Finset.sum (Finset.range size1) (fun row =>
          p row * ell_row_sum maxnnz isz1 el coords p row) :=
      Finset.sum_congr rfl (fun row hr => by
        rw [h.1 row, if_pos (Finset.mem_range.mp hr)])
    rw [h.2, hsum1, hsum2]
    constructor
    · simp [upd, hne]
    · simp [upd]
  · intro size1 rpb cpb ci bs el p Ap blen buf hB hrpb
    have h := pipelined_cg_prod_sliced_ell_spec size1 rpb hrpb cpb ci bs el p
      Ap blen buf
    have hne : (blen / 3 : Nat) ≠ 2 * (blen / 3) := by omega
    have hsum1 : Finset.sum (Finset.range size1) (fun row =>
        (pipelined_cg_prod_sliced_ell size1 rpb cpb ci bs el p size1 Ap blen
            buf).Ap row *
          (pipelined_cg_prod_sliced_ell size1 rpb cpb ci bs el p size1 Ap
            blen buf).Ap row) =
        Finset.sum (Finset.range size1) (fun row =>
          sellRowValue rpb cpb bs ci el p row *
            sellRowValue rpb cpb bs ci el p row) :=
      Finset.sum_congr rfl (fun row hr => by
        rw [h.1 row, if_pos (Finset.mem_range.mp hr)])
    have hsum2 : Finset.sum (Finset.range size1) (fun row =>
        p row * (pipelined_cg_prod_sliced_ell size1 rpb cpb ci bs el p size1
          Ap blen buf).Ap row) =
        Finset.sum (Finset.range size1) (fun row =>
          p row * sellRowValue rpb cpb bs ci el p row) :=
      Finset.sum_congr rfl (fun row hr => by
        rw [h.1 row, if_pos (Finset.mem_range.mp hr)])
    rw [h.2, hsum1, hsum2]
    constructor
    · simp [upd, hne]
    · simp [upd]
  · intro size1 isz1 ellnnz el coords crb ccb cel p Ap blen buf hB
    have h := pipelined_cg_prod_hyb_spec size1 isz1 ellnnz el coords crb ccb
      cel p Ap blen buf
    have hne : (blen / 3 : Nat) ≠ 2 * (blen / 3) := by omega
    have hsum1 : Finset.sum (Finset.range size1) (fun row =>
        (pipelined_cg_prod_hyb size1 isz1 ellnnz el coords crb ccb cel p Ap
            blen buf).Ap row *
          (pipelined_cg_prod_hyb size1 isz1 ellnnz el coords crb ccb cel p
            Ap blen buf).Ap row) =
        Finset.sum (Finset.range size1) (fun row =>
          hyb_row_sum ellnnz isz1 el coords crb ccb cel p row *
            hyb_row_sum ellnnz isz1 el coords crb ccb cel p row) :=
      Finset.sum_congr rfl (fun row hr => by
        rw [h.1 row, if_pos (Finset.mem_range.mp hr)])
    have hsum2 : Finset.sum (Finset.range size1) (fun row =>
        p row * (pipelined_cg_prod_hyb size1 isz1 ellnnz el coords crb ccb
          cel p Ap blen buf).Ap row) =
        Finset.sum (Finset.range size1) (fun row =>
          p row * hyb_row_sum ellnnz isz1 el coords crb ccb cel p row) :=
      Finset.sum_congr rfl (fun row hr => by
        rw [h.1 row, if_pos (Finset.mem_range.mp hr)])
    rw [h.2, hsum1, hsum2]
    constructor
    · simp [upd, hne]
    · simp [upd]
  · norm_num [pipelined_cg_prod_csr, csr_row_dot, upd, List.range_succ,
      List.range', exRb, exIdx0, exEl5, exP3, exZero]

/-- Witness for C2: the CSR part applied to the `1 × 1` single-nonzero
test. -/
theorem C2_reduction_sums_witness :
    (1 : Nat) ≤ 3 / 3 ∧
    (pipelined_cg_prod_csr 1 exRb exIdx0 exEl5 exP3 exZero 3
        exZero).buffer (3 / 3) =
      Finset.sum (Finset.range 1) (fun row =>
        (pipelined_cg_prod_csr 1 exRb exIdx0 exEl5 exP3 exZero 3
            exZero).Ap row *
          (pipelined_cg_prod_csr 1 exRb exIdx0 exEl5 exP3 exZero 3
            exZero).Ap row) :=
  ⟨by norm_num,
    (C2_reduction_sums.1 1 exRb exIdx0 exEl5 exP3 exZero 3 exZero
      (by norm_num)).1⟩

/-- C3 counterexample: on the `1 × 1` matrix with value `5` and `p = [3]`
(buffer length 3, so `B = 1`), the CSR kernel's value at offset `B` is
`225 = inner_prod(Ap,Ap)`, not `inner_prod(p,Ap) = 45` as claimed. -/
theorem C3_offsets_counterexample :
    (pipelined_cg_prod_csr 1 exRb exIdx0 exEl5 exP3 exZero 3
        exZero).buffer 1 ≠
      Finset.sum (Finset.range 1) (fun row =>
        exP3 row * (pipelined_cg_prod_csr 1 exRb exIdx0 exEl5 exP3 exZero 3
          exZero).Ap row) := by
  norm_num [pipelined_cg_prod_csr, csr_row_dot, upd, List.range_succ,
    List.range', exRb, exIdx0, exEl5, exP3, exZero]

/-- C3 (amended): the three partial sums at offsets `0`, `B`, `2B`
correspond, in that order, to `(r,r)` from the vector-update kernel,
`(Ap,Ap)` from the SpMV kernel, and `(p,Ap)` from the SpMV kernel — for
every SpMV kernel call the value at `B` is `inner_prod(Ap,Ap)` and the
value at `2B` is `inner_prod(p,Ap)`. -/
theorem C3_offsets_amended :
    (∀ (size : Nat) (result0 : Nat → ℚ) (alpha : ℚ) (p0 r0 Ap : Nat → ℚ)
        (beta : ℚ) (buf : Nat → ℚ),
      (pipelined_cg_vector_update size result0 alpha p0 r0 Ap beta
          buf).buffer 0 =
        Finset.sum (Finset.range size) (fun i =>
          (r0 i - alpha * Ap i) * (r0 i - alpha * Ap i))) ∧
    (∀ (size1 : Nat) (rb cb : Nat → Nat) (el p Ap : Nat → ℚ)
        (blen : Nat) (buf : Nat → ℚ), 1 ≤ blen / 3 →
      (pipelined_cg_prod_csr size1 rb cb el p Ap blen buf).buffer (blen / 3) =
        Finset.sum (Finset.range size1) (fun row =>
          (pipelined_cg_prod_csr size1 rb cb el p Ap blen buf).Ap row *
            (pipelined_cg_prod_csr size1 rb cb el p Ap blen buf).Ap row) ∧
      (pipelined_cg_prod_csr size1 rb cb el p Ap blen buf).buffer
          (2 * (blen / 3)) =
        Finset.sum (Finset.range size1) (fun row =>
          p row * (pipelined_cg_prod_csr size1 rb cb el p Ap blen
            buf).Ap row)) ∧
    (∀ (nnz : Nat) (coord : Nat → Nat) (el p : Nat → ℚ) (ap_size : Nat)
        (Ap : Nat → ℚ) (blen : Nat) (buf : Nat → ℚ), 1 ≤ blen / 3 →
      (pipelined_cg_prod_coo nnz coord el p ap_size Ap blen buf).buffer
          (blen / 3) =
        Finset.sum (Finset.range ap_size) (fun row =>
          (pipelined_cg_prod_coo nnz coord el p ap_size Ap blen buf).Ap row *
            (pipelined_cg_prod_coo nnz coord el p ap_size Ap blen
              buf).Ap row) ∧
      (pipelined_cg_prod_coo nnz coord el p ap_size Ap blen buf).buffer
          (2 * (blen / 3)) =
        Finset.sum (Finset.range ap_size) (fun row =>
          p row * (pipelined_cg_prod_coo nnz coord el p ap_size Ap blen
            buf).Ap row)) ∧
    (∀ (size1 isz1 maxnnz : Nat) (el : Nat → ℚ) (coords : Nat → Nat)
        (p Ap : Nat → ℚ) (blen : Nat) (buf : Nat → ℚ), 1 ≤ blen / 3 →
      (pipelined_cg_prod_ell size1 isz1 maxnnz el coords p Ap blen
          buf).buffer (blen / 3) =
        Finset.sum (Finset.range size1) (fun row =>
          (pipelined_cg_prod_ell size1 isz1 maxnnz el coords p Ap blen
              buf).Ap row *
            (pipelined_cg_prod_ell size1 isz1 maxnnz el coords p Ap blen
              buf).Ap row) ∧
      (pipelined_cg_prod_ell size1 isz1 maxnnz el coords p Ap blen
          buf).buffer (2 * (blen / 3)) =
        Finset.sum (Finset.range size1) (fun row =>
          p row * (pipelined_cg_prod_ell size1 isz1 maxnnz el coords p Ap
            blen buf).Ap row)) ∧
    (∀ (size1 rpb : Nat) (cpb ci bs : Nat → Nat) (el p Ap : Nat → ℚ)
        (blen : Nat) (buf : Nat → ℚ), 1 ≤ blen / 3 → 0 < rpb →
      (pipelined_cg_prod_sliced_ell size1 rpb cpb ci bs el p size1 Ap blen
          buf).buffer (blen / 3) =
        Finset.sum (Finset.range size1) (fun row =>
          (pipelined_cg_prod_sliced_ell size1 rpb cpb ci bs el p size1 Ap
              blen buf).Ap row *
            (pipelined_cg_prod_sliced_ell size1 rpb cpb ci bs el p size1 Ap
              blen buf).Ap row) ∧
      (pipelined_cg_prod_sliced_ell size1 rpb cpb ci bs el p size1 Ap blen
          buf).buffer (2 * (blen / 3)) =
        Finset.sum (Finset.range size1) (fun row =>
          p row * (pipelined_cg_prod_sliced_ell size1 rpb cpb ci bs el p
            size1 Ap blen buf).Ap row)) ∧
    (∀ (size1 isz1 ellnnz : Nat) (el : Nat → ℚ) (coords : Nat → Nat)
        (crb ccb : Nat → Nat) (cel p Ap : Nat → ℚ) (blen : Nat)
        (buf : Nat → ℚ), 1 ≤ blen / 3 →
      (pipelined_cg_prod_hyb size1 isz1 ellnnz el coords crb ccb cel p Ap
          blen buf).buffer (blen / 3) =
        Finset.sum (Finset.range size1) (fun row =>
          (pipelined_cg_prod_hyb size1 isz1 ellnnz el coords crb ccb cel p
              Ap blen buf).Ap row *
            (pipelined_cg_prod_hyb size1 isz1 ellnnz el coords crb ccb cel p
              Ap blen buf).Ap row) ∧
      (pipelined_cg_prod_hyb size1 isz1 ellnnz el coords crb ccb cel p Ap
          blen buf).buffer (2 * (blen / 3)) =
        Finset.sum (Finset.range size1) (fun row =>
          p row * (pipelined_cg_prod_hyb size1 isz1 ellnnz el coords crb ccb
            cel p Ap blen buf).Ap row)) := by
  refine ⟨?_, ?_, ?_, ?_, ?_, ?_⟩
  · intro size result0 alpha p0 r0 Ap beta buf
    have h := pipelined_cg_vector_update_spec size result0 alpha p0 r0 Ap
      beta buf
    rw [h.2.2.2]
    simp [upd]
  · intro size1 rb cb el p Ap blen buf hB
    have h := pipelined_cg_prod_csr_spec size1 rb cb el p Ap blen buf
    have hne : (blen / 3 : Nat) ≠ 2 * (blen / 3) := by omega
    have hsum1 : Finset.sum (Finset.range size1) (fun row =>
        (pipelined_cg_prod_csr size1 rb cb el p Ap blen buf).Ap row *
          (pipelined_cg_prod_csr size1 rb cb el p Ap blen buf).Ap row) =
        Finset.sum (Finset.range size1) (fun row =>
          csr_row_dot el cb p (rb row) (rb (row + 1)) *
            csr_row_dot el cb p (rb row) (rb (row + 1))) :=
      Finset.sum_congr rfl (fun row hr => by
        rw [h.1 row, if_pos (Finset.mem_range.mp hr)])
    have hsum2 : Finset.sum (Finset.range size1) (fun row =>
        p row * (pipelined_cg_prod_csr size1 rb cb el p Ap blen
          buf).Ap row) =
        Finset.sum (Finset.range size1) (fun row =>
          p row * csr_row_dot el cb p (rb row) (rb (row + 1))) :=
      Finset.sum_congr rfl (fun row hr => by
        rw [h.1 row, if_pos (Finset.mem_range.mp hr)])
    rw [h.2, hsum1, hsum2]
    exact ⟨by simp [upd, hne], by simp [upd]⟩
  · intro nnz coord el p ap_size Ap blen buf hB
    have h := pipelined_cg_prod_coo_spec nnz coord el p ap_size Ap blen buf
    have hne : (blen / 3 : Nat) ≠ 2 * (blen / 3) := by omega
    have hsum2 : Finset.sum (Finset.range ap_size) (fun row =>
        (pipelined_cg_prod_coo nnz coord el p ap_size Ap blen buf).Ap row *
          p row) =
        Finset.sum (Finset.range ap_size) (fun row =>
          p row * (pipelined_cg_prod_coo nnz coord el p ap_size Ap blen
            buf).Ap row) :=
      Finset.sum_congr rfl (fun row _ => mul_comm _ _)
    rw [h.2]
    exact ⟨by simp [upd, hne], by rw [← hsum2]; simp [upd]⟩
  · intro size1 isz1 maxnnz el coords p Ap blen buf hB
    have h := pipelined_cg_prod_ell_spec size1 isz1 maxnnz el coords p Ap
      blen buf
    have hne : (blen / 3 : Nat) ≠ 2 * (blen / 3) := by omega
    have hsum1 : Finset.sum (Finset.range size1) (fun row =>
        (pipelined_cg_prod_ell size1 isz1 maxnnz el coords p Ap blen
            buf).Ap row *
          (pipelined_cg_prod_ell size1 isz1 maxnnz el coords p Ap blen
            buf).Ap row) =
        Finset.sum (Finset.range size1) (fun row =>
          ell_row_sum maxnnz isz1 el coords p row *
            ell_row_sum maxnnz isz1 el coords p row) :=
      Finset.sum_congr rfl (fun row hr => by
        rw [h.1 row, if_pos (Finset.mem_range.mp hr)])
    have hsum2 : Finset.sum (Finset.range size1) (fun row =>
        p row * (pipelined_cg_prod_ell size1 isz1 maxnnz el coords p Ap blen
          buf).Ap row) =
        Finset.sum (Finset.range size1) (fun row =>
          p row * ell_row_sum maxnnz isz1 el coords p row) :=
      Finset.sum_congr rfl (fun row hr => by
        rw [h.1 row, if_pos (Finset.mem_range.mp hr)])
    rw [h.2, hsum1, hsum2]
    exact ⟨by simp [upd, hne], by simp [upd]⟩
  · intro size1 rpb cpb ci bs el p Ap blen buf hB hrpb
    have h := pipelined_cg_prod_sliced_ell_spec size1 rpb hrpb cpb ci bs el p
      Ap blen buf
    have hne : (blen / 3 : Nat) ≠ 2 * (blen / 3) := by omega
    have hsum1 : Finset.sum (Finset.range size1) (fun row =>
        (pipelined_cg_prod_sliced_ell size1 rpb cpb ci bs el p size1 Ap blen
            buf).Ap row *
          (pipelined_cg_prod_sliced_ell size1 rpb cpb ci bs el p size1 Ap
            blen buf).Ap row) =
        Finset.sum (Finset.range size1) (fun row =>
          sellRowValue rpb cpb bs ci el p row *
            sellRowValue rpb cpb bs ci el p row) :=
      Finset.sum_congr rfl (fun row hr => by
        rw [h.1 row, if_pos (Finset.mem_range.mp hr)])
    have hsum2 : Finset.sum (Finset.range size1) (fun row =>
        p row * (pipelined_cg_prod_sliced_ell size1 rpb cpb ci bs el p size1
          Ap blen buf).Ap row) =
        Finset.sum (Finset.range size1) (fun row =>
          p row * sellRowValue rpb cpb bs ci el p row) :=
      Finset.sum_congr rfl (fun row hr => by
        rw [h.1 row, if_pos (Finset.mem_range.mp hr)])
    rw [h.2, hsum1, hsum2]
    exact ⟨by simp [upd, hne], by simp [upd]⟩
  · intro size1 isz1 ellnnz el coords crb ccb cel p Ap blen buf hB
    have h := pipelined_cg_prod_hyb_spec size1 isz1 ellnnz el coords crb ccb
      cel p Ap blen buf
    have hne : (blen / 3 : Nat) ≠ 2 * (blen / 3) := by omega
    have hsum1 : Finset.sum (Finset.range size1) (fun row =>
        (pipelined_cg_prod_hyb size1 isz1 ellnnz el coords crb ccb cel p Ap
            blen buf).Ap row *
          (pipelined_cg_prod_hyb size1 isz1 ellnnz el coords crb ccb cel p
            Ap blen buf).Ap row) =
        Finset.sum (Finset.range size1) (fun row =>
          hyb_row_sum ellnnz isz1 el coords crb ccb cel p row *
            hyb_row_sum ellnnz isz1 el coords crb ccb cel p row) :=
      Finset.sum_congr rfl (fun row hr => by
        rw [h.1 row, if_pos (Finset.mem_range.mp hr)])
    have hsum2 : Finset.sum (Finset.range size1) (fun row =>
        p row * (pipelined_cg_prod_hyb size1 isz1 ellnnz el coords crb ccb
          cel p Ap blen buf).Ap row) =
        Finset.sum (Finset.range size1) (fun row =>
          p row * hyb_row_sum ellnnz isz1 el coords crb ccb cel p row) :=
      Finset.sum_congr rfl (fun row hr => by
        rw [h.1 row, if_pos (Finset.mem_range.mp hr)])
    rw [h.2, hsum1, hsum2]
    exact ⟨by simp [upd, hne], by simp [upd]⟩

/-- Witness for the amended C3: the ELL part applied to the `1 × 1`
single-nonzero test. -/
theorem C3_offsets_amended_witness :
    (1 : Nat) ≤ 3 / 3 ∧
    (pipelined_cg_prod_ell 1 1 1 exEl5 exIdx0 exP3 exZero 3
        exZero).buffer (2 * (3 / 3)) =
      Finset.sum (Finset.range 1) (fun row =>
        exP3 row * (pipelined_cg_prod_ell 1 1 1 exEl5 exIdx0 exP3 exZero 3
          exZero).Ap row) :=
  ⟨by norm_num,
    (C3_offsets_amended.2.2.2.1 1 1 1 exEl5 exIdx0 exP3 exZero 3 exZero
      (by norm_num)).2⟩

/-- C5: in the ELL and HYB kernels a slot whose stored value is exactly
`0` is skipped before its column index is dereferenced — the outputs do
not depend on the column indices of zero-valued slots — and on an
all-structural-zero matrix both kernels produce a zero output vector and
zero values in both reduction slots. -/
theorem C5_zero_slot_skip :
    (∀ (size1 isz1 maxnnz : Nat) (el : Nat → ℚ) (c1 c2 : Nat → Nat)
        (p Ap : Nat → ℚ) (blen : Nat) (buf : Nat → ℚ),
      (∀ row, row < size1 → ∀ item, item < maxnnz →
        el (row + item * isz1) ≠ 0 →
          c1 (row + item * isz1) = c2 (row + item * isz1)) →
      (∀ j, (pipelined_cg_prod_ell size1 isz1 maxnnz el c1 p Ap blen
          buf).Ap j =
        (pipelined_cg_prod_ell size1 isz1 maxnnz el c2 p Ap blen buf).Ap j) ∧
      (pipelined_cg_prod_ell size1 isz1 maxnnz el c1 p Ap blen buf).buffer =
        (pipelined_cg_prod_ell size1 isz1 maxnnz el c2 p Ap blen
          buf).buffer) ∧
    (∀ (size1 isz1 ellnnz : Nat) (el : Nat → ℚ) (c1 c2 : Nat → Nat)
        (crb ccb : Nat → Nat) (cel p Ap : Nat → ℚ) (blen : Nat)
        (buf : Nat → ℚ),
      (∀ row, row < size1 → ∀ item, item < ellnnz →
        el (row + item * isz1) ≠ 0 →
          c1 (row + item * isz1) = c2 (row + item * isz1)) →
      (∀ j, (pipelined_cg_prod_hyb size1 isz1 ellnnz el c1 crb ccb cel p Ap
          blen buf).Ap j =
        (pipelined_cg_prod_hyb size1 isz1 ellnnz el c2 crb ccb cel p Ap blen
          buf).Ap j) ∧
      (pipelined_cg_prod_hyb size1 isz1 ellnnz el c1 crb ccb cel p Ap blen
          buf).buffer =
        (pipelined_cg_prod_hyb size1 isz1 ellnnz el c2 crb ccb cel p Ap blen
          buf).buffer) ∧
    (∀ (size1 isz1 maxnnz : Nat) (el : Nat → ℚ) (coords : Nat → Nat)
        (p Ap : Nat → ℚ) (blen : Nat) (buf : Nat → ℚ),
      (∀ row, row < size1 → ∀ item, item < maxnnz →
        el (row + item * isz1) = 0) →
      (∀ j, j < size1 →
        (pipelined_cg_prod_ell size1 isz1 maxnnz el coords p Ap blen
          buf).Ap j = 0) ∧
      (pipelined_cg_prod_ell size1 isz1 maxnnz el coords p Ap blen
        buf).buffer (blen / 3) = 0 ∧
      (pipelined_cg_prod_ell size1 isz1 maxnnz el coords p Ap blen
        buf).buffer (2 * (blen / 3)) = 0) ∧
    (∀ (size1 isz1 ellnnz : Nat) (el : Nat → ℚ) (coords : Nat → Nat)
        (crb ccb : Nat → Nat) (cel p Ap : Nat → ℚ) (blen : Nat)
        (buf : Nat → ℚ),
      (∀ row, row < size1 → ∀ item, item < ellnnz →
        el (row + item * isz1) = 0) →
      (∀ row, row < size1 →
        ∀ i ∈ Finset.Ico (crb row) (crb (row + 1)), cel i = 0) →
      (∀ j, j < size1 →
        (pipelined_cg_prod_hyb size1 isz1 ellnnz el coords crb ccb cel p Ap
          blen buf).Ap j = 0) ∧
      (pipelined_cg_prod_hyb size1 isz1 ellnnz el coords crb ccb cel p Ap
        blen buf).buffer (blen / 3) = 0 ∧
      (pipelined_cg_prod_hyb size1 isz1 ellnnz el coords crb ccb cel p Ap
        blen buf).buffer (2 * (blen / 3)) = 0) := by
  refine ⟨?_, ?_, ?_, ?_⟩
  · intro size1 isz1 maxnnz el c1 c2 p Ap blen buf hcong
    have h1 := pipelined_cg_prod_ell_spec size1 isz1 maxnnz el c1 p Ap blen buf
    have h2 := pipelined_cg_prod_ell_spec size1 isz1 maxnnz el c2 p Ap blen buf
    have hrow : ∀ row, row < size1 →
        ell_row_sum maxnnz isz1 el c1 p row =
          ell_row_sum maxnnz isz1 el c2 p row :=
      fun row hr => ell_row_sum_congr maxnnz isz1 el c1 c2 p row (hcong row hr)
    constructor
    · intro j
      rw [h1.1 j, h2.1 j]
      by_cases hj : j < size1
      · rw [if_pos hj, if_pos hj, hrow j hj]
      · rw [if_neg hj, if_neg hj]
    · have hs1 : Finset.sum (Finset.range size1) (fun row =>
          ell_row_sum maxnnz isz1 el c1 p row *
            ell_row_sum maxnnz isz1 el c1 p row) =
          Finset.sum (Finset.range size1) (fun row =>
            ell_row_sum maxnnz isz1 el c2 p row *
              ell_row_sum maxnnz isz1 el c2 p row) :=
        Finset.sum_congr rfl (fun row hr => by
          rw [hrow row (Finset.mem_range.mp hr)])
      have hs2 : Finset.sum (Finset.range size1) (fun row =>
          p row * ell_row_sum maxnnz isz1 el c1 p row) =
          Finset.sum (Finset.range size1) (fun row =>
            p row * ell_row_sum maxnnz isz1 el c2 p row) :=
        Finset.sum_congr rfl (fun row hr => by
          rw [hrow row (Finset.mem_range.mp hr)])
      rw [h1.2, h2.2, hs1, hs2]
  · intro size1 isz1 ellnnz el c1 c2 crb ccb cel p Ap blen buf hcong
    have h1 := pipelined_cg_prod_hyb_spec size1 isz1 ellnnz el c1 crb ccb cel
      p Ap blen buf
    have h2 := pipelined_cg_prod_hyb_spec size1 isz1 ellnnz el c2 crb ccb cel
      p Ap blen buf
    have hrow : ∀ row, row < size1 →
        hyb_row_sum ellnnz isz1 el c1 crb ccb cel p row =
          hyb_row_sum ellnnz isz1 el c2 crb ccb cel p row :=
      fun row hr => hyb_row_sum_congr ellnnz isz1 el c1 c2 crb ccb cel p row
        (hcong row hr)
    constructor
    · intro j
      rw [h1.1 j, h2.1 j]
      by_cases hj : j < size1
      · rw [if_pos hj, if_pos hj, hrow j hj]
      · rw [if_neg hj, if_neg hj]
    · have hs1 : Finset.sum (Finset.range size1) (fun row =>
          hyb_row_sum ellnnz isz1 el c1 crb ccb cel p row *
            hyb_row_sum ellnnz isz1 el c1 crb ccb cel p row) =
          Finset.sum (Finset.range size1) (fun row =>
            hyb_row_sum ellnnz isz1 el c2 crb ccb cel p row *
              hyb_row_sum ellnnz isz1 el c2 crb ccb cel p row) :=
        Finset.sum_congr rfl (fun row hr => by
          rw [hrow row (Finset.mem_range.mp hr)])
      have hs2 : Finset.sum (Finset.range size1) (fun row =>
          p row * hyb_row_sum ellnnz isz1 el c1 crb ccb cel p row) =
          Finset.sum (Finset.range size1) (fun row =>
            p row * hyb_row_sum ellnnz isz1 el c2 crb ccb cel p row) :=
        Finset.sum_congr rfl (fun row hr => by
          rw [hrow row (Finset.mem_range.mp hr)])
      rw [h1.2, h2.2, hs1, hs2]
  · intro size1 isz1 maxnnz el coords p Ap blen buf hz
    have h := pipelined_cg_prod_ell_spec size1 isz1 maxnnz el coords p Ap
      blen buf
    have hrow : ∀ row, row < size1 →
        ell_row_sum maxnnz isz1 el coords p row = 0 :=
      fun row hr => ell_row_sum_zero maxnnz isz1 el coords p row (hz row hr)
    have hZ1 : Finset.sum (Finset.range size1) (fun row =>
        ell_row_sum maxnnz isz1 el coords p row *
          ell_row_sum maxnnz isz1 el coords p row) = 0 :=
      Finset.sum_eq_zero (fun row hr => by
        rw [hrow row (Finset.mem_range.mp hr), mul_zero])
    have hZ2 : Finset.sum (Finset.range size1) (fun row =>
        p row * ell_row_sum maxnnz isz1 el coords p row) = 0 :=
      Finset.sum_eq_zero (fun row hr => by
        rw [hrow row (Finset.mem_range.mp hr), mul_zero])
    refine ⟨fun j hj => by rw [h.1 j, if_pos hj, hrow j hj], ?_, ?_⟩
    · rw [h.2, hZ1, hZ2]
      simp [upd]
    · rw [h.2, hZ1, hZ2]
      simp [upd]
  · intro size1 isz1 ellnnz el coords crb ccb cel p Ap blen buf hze hzc
    have h := pipelined_cg_prod_hyb_spec size1 isz1 ellnnz el coords crb ccb
      cel p Ap blen buf
    have hrow : ∀ row, row < size1 →
        hyb_row_sum ellnnz isz1 el coords crb ccb cel p row = 0 :=
      fun row hr => hyb_row_sum_zero ellnnz isz1 el coords crb ccb cel p row
        (hze row hr) (hzc row hr)
    have hZ1 : Finset.sum (Finset.range size1) (fun row =>
        hyb_row_sum ellnnz isz1 el coords crb ccb cel p row *
          hyb_row_sum ellnnz isz1 el coords crb ccb cel p row) = 0 :=
      Finset.sum_eq_zero (fun row hr => by
        rw [hrow row (Finset.mem_range.mp hr), mul_zero])
    have hZ2 : Finset.sum (Finset.range size1) (fun row =>
        p row * hyb_row_sum ellnnz isz1 el coords crb ccb cel p row) = 0 :=
      Finset.sum_eq_zero (fun row hr => by
        rw [hrow row (Finset.mem_range.mp hr), mul_zero])
    refine ⟨fun j hj => by rw [h.1 j, if_pos hj, hrow j hj], ?_, ?_⟩
    · rw [h.2, hZ1, hZ2]
      simp [upd]
    · rw [h.2, hZ1, hZ2]
      simp [upd]

/-- Witness for C5: the all-zero ELL matrix with an out-of-range padding
column index yields a zero output row, and replacing that index changes
nothing. -/
theorem C5_zero_slot_skip_witness :
    (∀ row, row < 1 → ∀ item, item < 1 →
      exZero (row + item * 1) = (0 : ℚ)) ∧
    (pipelined_cg_prod_ell 1 1 1 exZero (fun _ => 1000000) exP3 exOnes 3
      exSentinel).Ap 0 = 0 ∧
    (∀ row, row < 1 → ∀ item, item < 1 →
      exZero (row + item * 1) ≠ (0 : ℚ) →
      (fun _ => (1000000 : Nat)) (row + item * 1) = exIdx0 (row + item * 1)) ∧
    (pipelined_cg_prod_ell 1 1 1 exZero (fun _ => 1000000) exP3 exOnes 3
        exSentinel).Ap 0 =
      (pipelined_cg_prod_ell 1 1 1 exZero exIdx0 exP3 exOnes 3
        exSentinel).Ap 0 :=
  ⟨fun _ _ _ _ => rfl,
    (C5_zero_slot_skip.2.2.1 1 1 1 exZero (fun _ => 1000000) exP3 exOnes 3
      exSentinel (fun _ _ _ _ => rfl)).1 0 (by norm_num),
    fun _ _ _ _ hne => absurd rfl hne,
    (C5_zero_slot_skip.1 1 1 1 exZero (fun _ => 1000000) exIdx0 exP3 exOnes 3
      exSentinel (fun _ _ _ _ hne => absurd rfl hne)).1 0⟩

/-- C7: the COO kernel zeroes the whole output vector, scatter-accumulates
`Ap[row] += value * p[col]` over the stored triples, and computes the two
reductions in a separate second pass over the completed output: every
output entry equals the sum of `value * p[col]` over exactly the stored
entries of its row, rows with no stored entries end at `0`, and the
reduction slots hold sums over the completed output vector. -/
theorem C7_coo_phases (nnz : Nat) (coord : Nat → Nat) (el p : Nat → ℚ)
    (ap_size : Nat) (Ap : Nat → ℚ) (blen : Nat) (buf : Nat → ℚ) :
    (∀ row, row < ap_size →
      (pipelined_cg_prod_coo nnz coord el p ap_size Ap blen buf).Ap row =
        Finset.sum ((Finset.range nnz).filter (fun i => coord (2 * i) = row))
          (fun i => el i * p (coord (2 * i + 1)))) ∧
    (∀ row, row < ap_size →
      ((Finset.range nnz).filter (fun i => coord (2 * i) = row)) = ∅ →
      (pipelined_cg_prod_coo nnz coord el p ap_size Ap blen buf).Ap row = 0) ∧
    (1 ≤ blen / 3 →
      (pipelined_cg_prod_coo nnz coord el p ap_size Ap blen buf).buffer
          (blen / 3) =
        Finset.sum (Finset.range ap_size) (fun i =>
          (pipelined_cg_prod_coo nnz coord el p ap_size Ap blen buf).Ap i *
            (pipelined_cg_prod_coo nnz coord el p ap_size Ap blen
              buf).Ap i) ∧
      (pipelined_cg_prod_coo nnz coord el p ap_size Ap blen buf).buffer
          (2 * (blen / 3)) =
        Finset.sum (Finset.range ap_size) (fun i =>
          (pipelined_cg_prod_coo nnz coord el p ap_size Ap blen buf).Ap i *
            p i)) := by
  have h := pipelined_cg_prod_coo_spec nnz coord el p ap_size Ap blen buf
  have hAp : ∀ row, row < ap_size →
      (pipelined_cg_prod_coo nnz coord el p ap_size Ap blen buf).Ap row =
        Finset.sum ((Finset.range nnz).filter (fun i => coord (2 * i) = row))
          (fun i => el i * p (coord (2 * i + 1))) := by
    intro row hrow
    rw [h.1 row, if_pos hrow, zero_add, Finset.sum_filter]
  refine ⟨hAp, ?_, ?_⟩
  · intro row hrow hempty
    rw [hAp row hrow, hempty, Finset.sum_empty]
  · intro hB
    have hne : (blen / 3 : Nat) ≠ 2 * (blen / 3) := by omega
    rw [h.2]
    exact ⟨by simp [upd, hne], by simp [upd]⟩

/-- Witness for C7: the single-entry COO matrix `[5]` with `p = [3]`. -/
theorem C7_coo_phases_witness :
    (0 : Nat) < 1 ∧
    (pipelined_cg_prod_coo 1 exIdx0 exEl5 exP3 1 exSentinel 3 exZero).Ap 0 =
      Finset.sum ((Finset.range 1).filter (fun i => exIdx0 (2 * i) = 0))
        (fun i => exEl5 i * exP3 (exIdx0 (2 * i + 1))) :=
  ⟨Nat.zero_lt_one,
    (C7_coo_phases 1 exIdx0 exEl5 exP3 1 exSentinel 3 exZero).1 0
      Nat.zero_lt_one⟩

/-- C4: for a logical `M × N` matrix `L` represented in all five formats
and any vector `p`, all five fused SpMV kernels produce the same output
vector — every row below `M` holding the exact matrix-vector product and
every other entry untouched — and the same reduction buffer contents. -/
theorem C4_format_equivalence (M N : Nat) (L : Nat → Nat → ℚ)
    (p Ap0 buf : Nat → ℚ) (blen : Nat)
    (rb cb : Nat → Nat) (elc : Nat → ℚ)
    (nnz : Nat) (coord : Nat → Nat) (elo : Nat → ℚ)
    (isz1 maxnnz : Nat) (ele : Nat → ℚ) (ce : Nat → Nat)
    (rpb : Nat) (cpb ci bs : Nat → Nat) (els : Nat → ℚ)
    (isz1h ellnnz : Nat) (elh : Nat → ℚ) (ch : Nat → Nat)
    (crb ccb : Nat → Nat) (cel : Nat → ℚ)
    (hrpb : 0 < rpb)
    (h1 : csrRepresents M rb cb elc N L)
    (h2 : cooRepresents nnz coord elo M N L)
    (h3 : ellRepresents M isz1 maxnnz ele ce N L)
    (h4 : sellRepresents M rpb cpb bs ci els N L)
    (h5 : hybRepresents M isz1h ellnnz elh ch crb ccb cel N L) :
    (∀ j, (pipelined_cg_prod_csr M rb cb elc p Ap0 blen buf).Ap j =
      if j < M then matVec N L p j else Ap0 j) ∧
    (∀ j, (pipelined_cg_prod_coo nnz coord elo p M Ap0 blen buf).Ap j =
      if j < M then matVec N L p j else Ap0 j) ∧
    (∀ j, (pipelined_cg_prod_ell M isz1 maxnnz ele ce p Ap0 blen buf).Ap j =
      if j < M then matVec N L p j else Ap0 j) ∧
    (∀ j, (pipelined_cg_prod_sliced_ell M rpb cpb ci bs els p M Ap0 blen
        buf).Ap j = if j < M then matVec N L p j else Ap0 j) ∧
    (∀ j, (pipelined_cg_prod_hyb M isz1h ellnnz elh ch crb ccb cel p Ap0
        blen buf).Ap j = if j < M then matVec N L p j else Ap0 j) ∧
    (pipelined_cg_prod_csr M rb cb elc p Ap0 blen buf).buffer =
      cgBuffer M N L p blen buf ∧
    (pipelined_cg_prod_coo nnz coord elo p M Ap0 blen buf).buffer =
      cgBuffer M N L p blen buf ∧
    (pipelined_cg_prod_ell M isz1 maxnnz ele ce p Ap0 blen buf).buffer =
      cgBuffer M N L p blen buf ∧
    (pipelined_cg_prod_sliced_ell M rpb cpb ci bs els p M Ap0 blen
      buf).buffer = cgBuffer M N L p blen buf ∧
    (pipelined_cg_prod_hyb M isz1h ellnnz elh ch crb ccb cel p Ap0 blen
      buf).buffer = cgBuffer M N L p blen buf ∧
    (∀ j, (pipelined_cg_prod_coo nnz coord elo p M Ap0 blen buf).Ap j =
      (pipelined_cg_prod_csr M rb cb elc p Ap0 blen buf).Ap j) ∧
    (∀ j, (pipelined_cg_prod_ell M isz1 maxnnz ele ce p Ap0 blen buf).Ap j =
      (pipelined_cg_prod_csr M rb cb elc p Ap0 blen buf).Ap j) ∧
    (∀ j, (pipelined_cg_prod_sliced_ell M rpb cpb ci bs els p M Ap0 blen
        buf).Ap j =
      (pipelined_cg_prod_csr M rb cb elc p Ap0 blen buf).Ap j) ∧
    (∀ j, (pipelined_cg_prod_hyb M isz1h ellnnz elh ch crb ccb cel p Ap0
        blen buf).Ap j =
      (pipelined_cg_prod_csr M rb cb elc p Ap0 blen buf).Ap j) ∧
    (pipelined_cg_prod_coo nnz coord elo p M Ap0 blen buf).buffer =
      (pipelined_cg_prod_csr M rb cb elc p Ap0 blen buf).buffer ∧
    (pipelined_cg_prod_ell M isz1 maxnnz ele ce p Ap0 blen buf).buffer =
      (pipelined_cg_prod_csr M rb cb elc p Ap0 blen buf).buffer ∧
    (pipelined_cg_prod_sliced_ell M rpb cpb ci bs els p M Ap0 blen
      buf).buffer = (pipelined_cg_prod_csr M rb cb elc p Ap0 blen
      buf).buffer ∧
    (pipelined_cg_prod_hyb M isz1h ellnnz elh ch crb ccb cel p Ap0 blen
      buf).buffer = (pipelined_cg_prod_csr M rb cb elc p Ap0 blen
      buf).buffer := by
  have c1 := csr_canonical M N rb cb elc L p Ap0 buf blen h1
  have c2 := coo_canonical M N nnz coord elo L p Ap0 buf blen h2
  have c3 := ell_canonical M N isz1 maxnnz ele ce L p Ap0 buf blen h3
  have c4 := sell_canonical M N rpb hrpb cpb ci bs els L p Ap0 buf blen h4
  have c5 := hyb_canonical M N isz1h ellnnz elh ch crb ccb cel L p Ap0 buf
    blen h5
  exact ⟨c1.1, c2.1, c3.1, c4.1, c5.1, c1.2, c2.2, c3.2, c4.2, c5.2,
    fun j => by rw [c2.1 j, c1.1 j],
    fun j => by rw [c3.1 j, c1.1 j],
    fun j => by rw [c4.1 j, c1.1 j],
    fun j => by rw [c5.1 j, c1.1 j],
    by rw [c2.2, c1.2], by rw [c3.2, c1.2], by rw [c4.2, c1.2],
    by rw [c5.2, c1.2]⟩

/-- Witness for C4: the `1 × 1` matrix with value `5` represented in all
five formats; the COO and CSR kernels agree on the produced vector. -/
theorem C4_format_equivalence_witness :
    (0 : Nat) < 1 ∧
    csrRepresents 1 exRb exIdx0 exEl5 1 exL ∧
    cooRepresents 1 exIdx0 exEl5 1 1 exL ∧
    ellRepresents 1 1 1 exEl5 exIdx0 1 exL ∧
    sellRepresents 1 1 exCpb1 exIdx0 exIdx0 exEl5 1 exL ∧
    hybRepresents 1 1 1 exEl5 exIdx0 exIdx0 exIdx0 exZero 1 exL ∧
    (pipelined_cg_prod_coo 1 exIdx0 exEl5 exP3 1 exZero 3 exZero).Ap 0 =
      (pipelined_cg_prod_csr 1 exRb exIdx0 exEl5 exP3 exZero 3
        exZero).Ap 0 := by
  have hcsr : csrRepresents 1 exRb exIdx0 exEl5 1 exL := by
    intro row hrow
    interval_cases row
    constructor
    · intro i hi
      norm_num [exIdx0]
    · intro col hcol
      interval_cases col
      norm_num [exL, exRb, exIdx0, exEl5, Nat.Ico_zero_eq_range,
        Finset.range_one, Finset.filter_singleton, Finset.sum_singleton]
  have hcoo : cooRepresents 1 exIdx0 exEl5 1 1 exL := by
    constructor
    · intro i hi
      norm_num [exIdx0]
    · intro row hrow col hcol
      interval_cases row
      interval_cases col
      norm_num [exL, exIdx0, exEl5, Finset.range_one,
        Finset.filter_singleton, Finset.sum_singleton]
  have hell : ellRepresents 1 1 1 exEl5 exIdx0 1 exL := by
    intro row hrow
    interval_cases row
    constructor
    · intro item hitem hne
      norm_num [exIdx0]
    · intro col hcol
      interval_cases col
      norm_num [exL, exIdx0, exEl5, Finset.range_one,
        Finset.filter_singleton, Finset.sum_singleton]
  have hsell : sellRepresents 1 1 exCpb1 exIdx0 exIdx0 exEl5 1 exL := by
    intro row hrow
    interval_cases row
    constructor
    · intro ce hce hne
      norm_num [exIdx0]
    · intro col hcol
      interval_cases col
      norm_num [exL, exCpb1, exIdx0, exEl5, Finset.filter_singleton,
        Finset.sum_singleton, Finset.range_one]
  have hhyb : hybRepresents 1 1 1 exEl5 exIdx0 exIdx0 exIdx0 exZero 1 exL := by
    intro row hrow
    interval_cases row
    refine ⟨?_, ?_, ?_⟩
    · intro item hitem hne
      norm_num [exIdx0]
    · intro i hi
      simp [exIdx0] at hi
    · intro col hcol
      interval_cases col
      norm_num [exL, exIdx0, exEl5, Finset.filter_singleton,
        Finset.sum_singleton, Finset.range_one]
  exact ⟨Nat.zero_lt_one, hcsr, hcoo, hell, hsell, hhyb,
    (C4_format_equivalence 1 1 exL exP3 exZero exZero 3 exRb exIdx0 exEl5 1
      exIdx0 exEl5 1 1 exEl5 exIdx0 1 exCpb1 exIdx0 exIdx0 exEl5 1 1 exEl5
      exIdx0 exIdx0 exIdx0 exZero Nat.zero_lt_one hcsr hcoo hell hsell
      hhyb).2.2.2.2.2.2.2.2.2.2.1 0⟩

/-- C6: on a sliced-ELL matrix whose row count `M` is not a multiple of
`rows_per_block`, the overhang rows of the last block are never written
to the output vector and do not contribute to the reductions: the kernel
produces exactly the output and reduction buffer of the CSR kernel on the
logically equal matrix. -/
theorem C6_sell_overhang_equiv (M N rpb : Nat) (cpb ci bs : Nat → Nat)
    (els : Nat → ℚ) (rbb cbb : Nat → Nat) (elc : Nat → ℚ)
    (L : Nat → Nat → ℚ) (p Ap0 buf : Nat → ℚ) (blen : Nat)
    (hrpb : 0 < rpb) (hnd : M % rpb ≠ 0)
    (hsell : sellRepresents M rpb cpb bs ci els N L)
    (hcsr : csrRepresents M rbb cbb elc N L) :
    (∀ j, M ≤ j →
      (pipelined_cg_prod_sliced_ell M rpb cpb ci bs els p M Ap0 blen
        buf).Ap j = Ap0 j) ∧
    (∀ j, (pipelined_cg_prod_sliced_ell M rpb cpb ci bs els p M Ap0 blen
        buf).Ap j =
      (pipelined_cg_prod_csr M rbb cbb elc p Ap0 blen buf).Ap j) ∧
    (pipelined_cg_prod_sliced_ell M rpb cpb ci bs els p M Ap0 blen
      buf).buffer =
      (pipelined_cg_prod_csr M rbb cbb elc p Ap0 blen buf).buffer := by
  have c4 := sell_canonical M N rpb hrpb cpb ci bs els L p Ap0 buf blen hsell
  have c1 := csr_canonical M N rbb cbb elc L p Ap0 buf blen hcsr
  refine ⟨fun j hj => ?_, fun j => ?_, ?_⟩
  · rw [c4.1 j, if_neg (by omega : ¬ j < M)]
  · rw [c4.1 j, c1.1 j]
  · rw [c4.2, c1.2]

/-- Witness for C6: the `1 × 1` matrix with value `5` in sliced-ELL form
with two rows per block (`1 % 2 ≠ 0`): the overhang row leaves the output
untouched beyond row `0`. -/
theorem C6_sell_overhang_equiv_witness :
    (0 : Nat) < 2 ∧ (1 : Nat) % 2 ≠ 0 ∧
    sellRepresents 1 2 exCpb1 exIdx0 exIdx0 exEl50 1 exL ∧
    csrRepresents 1 exRb exIdx0 exEl5 1 exL ∧
    (pipelined_cg_prod_sliced_ell 1 2 exCpb1 exIdx0 exIdx0 exEl50 exP3 1
      exZero 3 exZero).Ap 1 = exZero 1 := by
  have hsell : sellRepresents 1 2 exCpb1 exIdx0 exIdx0 exEl50 1 exL := by
    intro row hrow
    interval_cases row
    constructor
    · intro ce hce hne
      norm_num [exIdx0]
    · intro col hcol
      interval_cases col
      norm_num [exL, exCpb1, exIdx0, exEl50, Finset.filter_singleton,
        Finset.sum_singleton, Finset.range_one]
  have hcsr : csrRepresents 1 exRb exIdx0 exEl5 1 exL := by
    intro row hrow
    interval_cases row
    constructor
    · intro i hi
      norm_num [exIdx0]
    · intro col hcol
      interval_cases col
      norm_num [exL, exRb, exIdx0, exEl5, Nat.Ico_zero_eq_range,
        Finset.range_one, Finset.filter_singleton, Finset.sum_singleton]
  exact ⟨by norm_num, by norm_num, hsell, hcsr,
    (C6_sell_overhang_equiv 1 1 2 exCpb1 exIdx0 exIdx0 exEl50 exRb exIdx0
      exEl5 exL exP3 exZero exZero 3 (by norm_num) (by norm_num) hsell
      hcsr).1 1 (le_refl 1)⟩

/-- C9: the sliced-ELL kernel iterates `size1 / rows_per_block + 1`
blocks; when `size1` is an exact multiple of `rows_per_block`, every row
of the extra block fails the `row < Ap.size()` guard, so the block loop's
output vector and both running sums are exactly those of the first
`size1 / rows_per_block` blocks, and the kernel leaves entries at or
beyond `size1` untouched. -/
theorem C9_sell_extra_block (size1 rpb : Nat) (cpb ci bs : Nat → Nat)
    (el p Ap0 : Nat → ℚ) (blen : Nat) (buf : Nat → ℚ)
    (hrpb : 0 < rpb) (hdvd : size1 % rpb = 0) :
    (∀ j, (sell_loop rpb size1 cpb bs ci el p Ap0 (size1 / rpb + 1)).Ap j =
      (sell_loop rpb size1 cpb bs ci el p Ap0 (size1 / rpb)).Ap j) ∧
    (sell_loop rpb size1 cpb bs ci el p Ap0 (size1 / rpb + 1)).ApAp =
      (sell_loop rpb size1 cpb bs ci el p Ap0 (size1 / rpb)).ApAp ∧
    (sell_loop rpb size1 cpb bs ci el p Ap0 (size1 / rpb + 1)).pAp =
      (sell_loop rpb size1 cpb bs ci el p Ap0 (size1 / rpb)).pAp ∧
    (∀ j, size1 ≤ j →
      (pipelined_cg_prod_sliced_ell size1 rpb cpb ci bs el p size1 Ap0 blen
        buf).Ap j = Ap0 j) := by
  have hloop : sell_loop rpb size1 cpb bs ci el p Ap0 (size1 / rpb + 1) =
      sell_block_step rpb size1 cpb bs ci el p
        (sell_loop rpb size1 cpb bs ci el p Ap0 (size1 / rpb))
        (size1 / rpb) := by
    unfold sell_loop
    rw [List.range_succ, List.foldl_append, List.foldl_cons, List.foldl_nil]
  have hstep := sell_block_step_spec rpb size1 cpb bs ci el p
    (sell_loop rpb size1 cpb bs ci el p Ap0 (size1 / rpb)) (size1 / rpb)
  have hfrm : size1 / rpb * rpb = size1 :=
    Nat.div_mul_cancel (Nat.dvd_of_mod_eq_zero hdvd)
  refine ⟨fun j => ?_, ?_, ?_, fun j hj => ?_⟩
  · rw [hloop, hstep.1 j,
      if_neg (by omega : ¬ (size1 / rpb * rpb ≤ j ∧
        j < size1 / rpb * rpb + rpb ∧ j < size1))]
  · rw [hloop, hstep.2.1,
      Finset.sum_eq_zero (fun rib _ =>
        if_neg (by omega : ¬ size1 / rpb * rpb + rib < size1)),
      add_zero]
  · rw [hloop, hstep.2.2,
      Finset.sum_eq_zero (fun rib _ =>
        if_neg (by omega : ¬ size1 / rpb * rpb + rib < size1)),
      add_zero]
  · have hs := sell_loop_spec rpb size1 hrpb cpb bs ci el p Ap0
      (size1 / rpb + 1)
    have h := hs.1 j
    rw [if_neg (by omega : ¬ (j < (size1 / rpb + 1) * rpb ∧ j < size1))] at h
    exact h

/-- Witness for C9: a `1 × 1` sliced-ELL matrix with one row per block
(`1 % 1 = 0`): the extra block leaves the `(Ap,Ap)` running sum
unchanged. -/
theorem C9_sell_extra_block_witness :
    (0 : Nat) < 1 ∧ (1 : Nat) % 1 = 0 ∧
    (sell_loop 1 1 exCpb1 exIdx0 exIdx0 exEl5 exP3 exZero (1 / 1 + 1)).ApAp =
      (sell_loop 1 1 exCpb1 exIdx0 exIdx0 exEl5 exP3 exZero (1 / 1)).ApAp :=
  ⟨Nat.zero_lt_one, rfl,
    (C9_sell_extra_block 1 1 exCpb1 exIdx0 exIdx0 exEl5 exP3 exZero 3 exZero
      Nat.zero_lt_one rfl).2.1⟩
